import Mathlib

/-!
Verification development for the OpenCarly selection-and-eviction engine.

Shallow embedding of the engine sources:
  * `src/src/engine/matcher.ts`  — domain matcher (`findMatchingKeywords`,
    `detectStarCommands`, `matchDomains`)
  * `src/src/engine/brackets.ts` — context bracket resolution (`getBracket`)
  * `src/src/engine/index.ts`    — smart tool output trimmer
    (`scoreToolPart`, `buildTrimSummary`, `trimMessageHistory`)
  * `src/src/engine/loader.ts`   — rule loader (`loadRules`, `calculateBaseline`)
  * `src/unnamed/part_008`       — session ledger (`loadCumulativeStats`,
    `updateCumulativeStats`, `calculateCumulativeStats`)
  * `src/src/index.ts`           — per-prompt injected-token estimate
    (`estimateRuleTokens`, the `tokensInjectedThisPrompt` sum)

Strings are modelled as Lean `String` (a list of characters); the JavaScript
string operations used by the sources (`toLowerCase`, `trim`, `includes`,
regex-escaped literal substring search, `split("\n").length`, `slice`) are
re-implemented over character lists so that every definition is executable
and kernel-reducible.  JavaScript's Unicode case folding and whitespace
classes are modelled on the ASCII range, the only range the engine's own
string constants exercise.  File-system reads (`parseDomainFile`) are
modelled by an explicit environment `env : String → List String` mapping a
file path to the parsed rule lines of that file; a missing document maps to
`[]`, matching the degrade-to-empty behaviour of the config loader.
-/

/-- ASCII lower-casing of one character (models `String.prototype.toLowerCase`
on the ASCII range). -/
def lowerChar (c : Char) : Char :=
  if 'A' ≤ c ∧ c ≤ 'Z' then Char.ofNat (c.toNat + 32) else c

/-- Lower-case a string (models `prompt.toLowerCase()`). -/
def lowerStr (s : String) : String := ⟨s.data.map lowerChar⟩

/-- Whitespace characters recognised when trimming (models ASCII whitespace
handled by `String.prototype.trim`). -/
def isWsChar (c : Char) : Bool := c = ' ' || c = '\t' || c = '\n' || c = '\r'

/-- Remove leading and trailing whitespace (models `s.trim()`). -/
def trimStr (s : String) : String :=
  ⟨((s.data.dropWhile isWsChar).reverse.dropWhile isWsChar).reverse⟩

/-- Index of the first occurrence of `needle` in a character list, if any. -/
def findSub (needle : List Char) : List Char → Option Nat
  | [] => if needle = [] then some 0 else none
  | c :: rest =>
    if needle.isPrefixOf (c :: rest) then some 0
    else (findSub needle rest).map (· + 1)

/-- Substring containment (models `hay.includes(needle)`, and equally the
regex test used by `findMatchingKeywords`, whose pattern escapes every
regex metacharacter and is therefore a literal substring search). -/
def strIncludes (hay needle : String) : Bool := (findSub needle.data hay.data).isSome

/-!  ### Matcher — `src/src/engine/matcher.ts`  -/

/-- `findMatchingKeywords(prompt, keywords)`: case-insensitive substring
match; returns the original keywords that match; a keyword that is empty
after trimming is skipped. -/
def findMatchingKeywords (prompt : String) (keywords : List String) : List String :=
  let promptLower := lowerStr prompt
  keywords.filter (fun keyword =>
    let keywordLower := trimStr (lowerStr keyword)
    (keywordLower != "") && strIncludes promptLower keywordLower)

/-- ASCII letter test (the `[a-zA-Z]` class of the star-command regex). -/
def isAlphaCh (c : Char) : Bool := ('a' ≤ c && c ≤ 'z') || ('A' ≤ c && c ≤ 'Z')

/-- Word character test (the `\w` class: letters, digits, underscore). -/
def isWordCh (c : Char) : Bool :=
  isAlphaCh c || ('0' ≤ c && c ≤ '9') || c = '_'

/-- One left-to-right pass of the global regex `\*([a-zA-Z]\w*)`: each match
consumes the asterisk and the identifier and scanning resumes after it; the
captured identifier is lower-cased.  The fuel argument (instantiated with
the list length) keeps the recursion structural. -/
def scanStarAux : Nat → List Char → List String
  | 0, _ => []
  | _, [] => []
  | fuel + 1, c :: rest =>
    if c = '*' then
      match rest with
      | [] => []
      | d :: rest2 =>
        if isAlphaCh d then
          (⟨(d :: rest2.takeWhile isWordCh).map lowerChar⟩ : String) ::
            scanStarAux fuel (rest2.dropWhile isWordCh)
        else scanStarAux fuel rest
    else scanStarAux fuel rest

/-- First-occurrence-order deduplication (models `[...new Set(commands)]`).
Fuel keeps the recursion structural. -/
def dedupFirstAux : Nat → List String → List String
  | 0, _ => []
  | _, [] => []
  | fuel + 1, x :: xs => x :: dedupFirstAux fuel (xs.filter (fun y => y != x))

/-- `detectStarCommands(prompt)`: all star-commands in order, lower-cased,
deduplicated. -/
def detectStarCommands (prompt : String) : List String :=
  let commands := scanStarAux prompt.data.length prompt.data
  dedupFirstAux commands.length commands

/-- Lifecycle state of a feature or domain (`"active" | "inactive"`). -/
inductive FeatState
  | active
  | inactive
deriving DecidableEq

/-- One domain definition from `manifest.json` (`DomainConfigSchema`). -/
structure DomainConfig where
  state : FeatState
  alwaysOn : Bool
  recallKws : List String
  exclude : List String
  paths : List String
  file : String
deriving DecidableEq

/-- The manifest fields consumed by the engine.  `domains` models the JS
object as an association list in property order; JS object keys are unique.
`commandsState`/`contextState` are `manifest.commands.state` and
`manifest.context.state`. -/
structure Manifest where
  devmode : Bool
  globalExclude : List String
  domains : List (String × DomainConfig)
  commandsState : FeatState
  contextState : FeatState
deriving DecidableEq

/-- `MatchResult` of the matcher; the `Record<string, string[]>` maps are
association lists in insertion order. -/
structure MatchResult where
  matched : List (String × List String)
  excluded : List (String × List String)
  globalExcluded : List String
  starCommands : List String
  alwaysOn : List String
deriving DecidableEq

/-- The per-domain loop of `matchDomains` (steps 2–3): returns
`(matched, excluded, alwaysOn)` in iteration order. -/
def processDomains (prompt : String) :
    List (String × DomainConfig) →
      List (String × List String) × List (String × List String) × List String
  | [] => ([], [], [])
  | (name, domain) :: rest =>
    if domain.state = FeatState.inactive then processDomains prompt rest
    else if domain.alwaysOn then
      let r := processDomains prompt rest
      (r.1, r.2.1, name :: r.2.2)
    else
      let excludeMatches :=
        if domain.exclude ≠ [] then findMatchingKeywords prompt domain.exclude else []
      if excludeMatches ≠ [] then
        let r := processDomains prompt rest
        (r.1, (name, excludeMatches) :: r.2.1, r.2.2)
      else
        let recallMatches :=
          if domain.recallKws ≠ [] then findMatchingKeywords prompt domain.recallKws else []
        if recallMatches ≠ [] then
          let r := processDomains prompt rest
          ((name, recallMatches) :: r.1, r.2.1, r.2.2)
        else processDomains prompt rest

/-- The non-short-circuit path of `matchDomains` (no global exclusion hit). -/
def matchDomainsMain (prompt : String) (manifest : Manifest) : MatchResult :=
  let r := processDomains prompt manifest.domains
  { matched := r.1
    excluded := r.2.1
    globalExcluded := []
    starCommands := detectStarCommands prompt
    alwaysOn := r.2.2 }

/-- `matchDomains(prompt, manifest)`: global-exclusion short-circuit, then
the per-domain loop, then star-command detection. -/
def matchDomains (prompt : String) (manifest : Manifest) : MatchResult :=
  if manifest.globalExclude ≠ [] then
    let globalMatches := findMatchingKeywords prompt manifest.globalExclude
    if globalMatches ≠ [] then
      { matched := []
        excluded := []
        globalExcluded := globalMatches
        starCommands := detectStarCommands prompt
        alwaysOn := [] }
    else matchDomainsMain prompt manifest
  else matchDomainsMain prompt manifest

/-- Modelled from the spec wording of claim C2: `k` occurs in `P` "delimited
by start/end of string or non-word characters" — the `(^|\W)k($|\W)`
boundary discipline the spec ascribes to the matcher.  Used only to compare
the spec's words with the source's behaviour. -/
def boundaryOccurs (prompt keyword : String) : Bool :=
  let p := prompt.data
  let k := keyword.data
  (List.range (p.length + 1)).any (fun i =>
    k.isPrefixOf (p.drop i) &&
    (match (p.take i).getLast? with
     | none => true
     | some c => !isWordCh c) &&
    (match (p.drop (i + k.length)).head? with
     | none => true
     | some c => !isWordCh c))

-- Sanity checks retracing end-to-end example 1 of the spec.
theorem matchDomains_spec_example_matched :
    (matchDomains "please *brief explain the *carly setup"
        { devmode := false
          globalExclude := []
          domains := [("docs",
            { state := FeatState.active, alwaysOn := false, recallKws := ["setup"]
              exclude := [], paths := [], file := "docs.md" })]
          commandsState := FeatState.active
          contextState := FeatState.active }).matched = [("docs", ["setup"])] := by
  decide

theorem matchDomains_spec_example_starCommands :
    (matchDomains "please *brief explain the *carly setup"
        { devmode := false
          globalExclude := []
          domains := []
          commandsState := FeatState.active
          contextState := FeatState.active }).starCommands = ["brief", "carly"] := by
  decide

/-!  ### Closed forms for the per-domain loop  -/

/-- Does the per-domain loop register this entry in the always-on set? -/
def domainActiveAlwaysOn (nd : String × DomainConfig) : Bool :=
  decide (nd.2.state ≠ FeatState.inactive) && nd.2.alwaysOn

/-- The per-domain exclusion record the loop produces for this entry. -/
def domainExcludedEntry (prompt : String) (nd : String × DomainConfig) :
    Option (String × List String) :=
  if nd.2.state = FeatState.inactive then none
  else if nd.2.alwaysOn then none
  else
    let em := if nd.2.exclude ≠ [] then findMatchingKeywords prompt nd.2.exclude else []
    if em ≠ [] then some (nd.1, em) else none

/-- The recall-match record the loop produces for this entry. -/
def domainMatchedEntry (prompt : String) (nd : String × DomainConfig) :
    Option (String × List String) :=
  if nd.2.state = FeatState.inactive then none
  else if nd.2.alwaysOn then none
  else if (if nd.2.exclude ≠ [] then findMatchingKeywords prompt nd.2.exclude else []) ≠ []
  then none
  else if (if nd.2.recallKws ≠ [] then findMatchingKeywords prompt nd.2.recallKws else []) ≠ []
  then some (nd.1, if nd.2.recallKws ≠ [] then findMatchingKeywords prompt nd.2.recallKws else [])
  else none

theorem processDomains_eq (prompt : String) (l : List (String × DomainConfig)) :
    processDomains prompt l =
      (l.filterMap (domainMatchedEntry prompt),
       l.filterMap (domainExcludedEntry prompt),
       (l.filter domainActiveAlwaysOn).map Prod.fst) := by
  induction l with
  | nil => rfl
  | cons hd tl ih =>
    obtain ⟨n0, d0⟩ := hd
    by_cases h1 : d0.state = FeatState.inactive
    · simp [processDomains, domainMatchedEntry, domainExcludedEntry, domainActiveAlwaysOn,
        h1, ih]
    · by_cases h2 : d0.alwaysOn
      · simp [processDomains, domainMatchedEntry, domainExcludedEntry, domainActiveAlwaysOn,
          h1, h2, ih]
      · by_cases h3 : (if d0.exclude ≠ [] then findMatchingKeywords prompt d0.exclude else []) ≠ []
        · have h3a : d0.exclude ≠ [] := by
            intro he
            exact h3 (by rw [he]; simp)
          have h3b : findMatchingKeywords prompt d0.exclude ≠ [] := by
            rwa [if_pos h3a] at h3
          simp [processDomains, domainMatchedEntry, domainExcludedEntry, domainActiveAlwaysOn,
            h1, h2, h3a, h3b, ih]
        · have h3e : (if d0.exclude ≠ [] then findMatchingKeywords prompt d0.exclude else []) = [] :=
            not_not.mp h3
          have h3' : ¬(¬d0.exclude = [] ∧ ¬findMatchingKeywords prompt d0.exclude = []) :=
            fun hc => hc.2 (by rwa [if_pos hc.1] at h3e)
          by_cases h4 :
            (if d0.recallKws ≠ [] then findMatchingKeywords prompt d0.recallKws else []) ≠ []
          · have h4a : d0.recallKws ≠ [] := by
              intro he
              exact h4 (by rw [he]; simp)
            have h4b : findMatchingKeywords prompt d0.recallKws ≠ [] := by
              rwa [if_pos h4a] at h4
            simp [processDomains, domainMatchedEntry, domainExcludedEntry, domainActiveAlwaysOn,
              h1, h2, h3', h4a, h4b, ih]
          · have h4e :
                (if d0.recallKws ≠ [] then findMatchingKeywords prompt d0.recallKws else []) = [] :=
              not_not.mp h4
            have h4' : ¬(¬d0.recallKws = [] ∧ ¬findMatchingKeywords prompt d0.recallKws = []) :=
              fun hc => hc.2 (by rwa [if_pos hc.1] at h4e)
            simp [processDomains, domainMatchedEntry, domainExcludedEntry, domainActiveAlwaysOn,
              h1, h2, h3', h4', ih]

theorem matchDomains_of_no_global_match (prompt : String) (m : Manifest)
    (hglob : findMatchingKeywords prompt m.globalExclude = []) :
    matchDomains prompt m = matchDomainsMain prompt m := by
  unfold matchDomains
  by_cases hge : m.globalExclude ≠ []
  · simp [hge, hglob]
  · simp [hge]

/-!  ### Claim C2  -/

/-- Manifest for the C2 counterexample: one active domain recalled by the
keyword "ram". -/
def mfstC2 : Manifest :=
  { devmode := false
    globalExclude := []
    domains := [("docs",
      { state := FeatState.active, alwaysOn := false, recallKws := ["ram"]
        exclude := [], paths := [], file := "docs.md" })]
    commandsState := FeatState.active
    contextState := FeatState.active }

/-- C2 counterexample: the matcher reports the keyword "ram" as matching the
prompt "programming" although "ram" occurs only strictly inside a longer
word (no word-boundary occurrence exists), so matching is not
boundary-aware as the claim states. -/
theorem matchDomains_matches_inside_word :
    (matchDomains "programming" mfstC2).matched = [("docs", ["ram"])] ∧
      boundaryOccurs "programming" "ram" = false := by
  decide

/-- C2 (amended): keyword matching in `matchDomains` — used alike for
global-suppression, per-domain exclusion and recall keywords via
`findMatchingKeywords` — is a case-insensitive plain substring test: a
keyword is reported as matching iff its trimmed lower-casing is non-empty
and occurs anywhere in the lower-cased prompt, including strictly inside a
longer word. -/
theorem findMatchingKeywords_substring_iff (prompt : String)
    (keywords : List String) (k : String) :
    k ∈ findMatchingKeywords prompt keywords ↔
      k ∈ keywords ∧ trimStr (lowerStr k) ≠ "" ∧
        strIncludes (lowerStr prompt) (trimStr (lowerStr k)) = true := by
  simp [findMatchingKeywords, List.mem_filter, bne_iff_ne, and_assoc]

/-!  ### Claim C6  -/

/-- Always-on domain whose exclude list would otherwise be a trap. -/
def secDomain : DomainConfig :=
  { state := FeatState.active, alwaysOn := true, recallKws := []
    exclude := ["halt"], paths := [], file := "sec.md" }

/-- Manifest for the C6 counterexample: a global-suppression keyword and an
active always-on domain. -/
def mfstC6 : Manifest :=
  { devmode := false
    globalExclude := ["halt"]
    domains := [("sec", secDomain)]
    commandsState := FeatState.active
    contextState := FeatState.active }

/-- C6 counterexample: the enabled always-on domain "sec" is dropped from
the always-on output when a global-suppression keyword matches the prompt,
so always-on inclusion is not unconditional on prompt content. -/
theorem alwaysOn_dropped_on_global_match :
    (matchDomains "halt" mfstC6).alwaysOn = [] ∧
      ("sec", secDomain) ∈ mfstC6.domains ∧
      secDomain.state = FeatState.active ∧ secDomain.alwaysOn = true := by
  decide

/-- C6 (amended): provided no global-suppression keyword matches the
prompt, every active `alwaysOn` domain appears in the always-on output of
`matchDomains` regardless of prompt content, and its exclude/recall keyword
lists are never consulted (no hypothesis about them is needed — a prompt
hitting the domain's own exclude list still yields the domain). -/
theorem alwaysOn_included_when_no_global_match (prompt : String) (m : Manifest)
    (name : String) (d : DomainConfig)
    (hglob : findMatchingKeywords prompt m.globalExclude = [])
    (hmem : (name, d) ∈ m.domains) (hact : d.state = FeatState.active)
    (hao : d.alwaysOn = true) :
    name ∈ (matchDomains prompt m).alwaysOn := by
  rw [matchDomains_of_no_global_match prompt m hglob]
  simp only [matchDomainsMain, processDomains_eq]
  refine List.mem_map.mpr ⟨(name, d), List.mem_filter.mpr ⟨hmem, ?_⟩, rfl⟩
  simp [domainActiveAlwaysOn, hact, hao]

/-- Domain with a trap exclusion keyword for the C6 witness. -/
def trapDomain : DomainConfig :=
  { state := FeatState.active, alwaysOn := true, recallKws := []
    exclude := ["trap"], paths := [], file := "sec.md" }

/-- Manifest for the C6 witness: no global exclusions, one always-on domain
whose exclude list contains the very keyword present in the prompt. -/
def mfstC6w : Manifest :=
  { devmode := false
    globalExclude := []
    domains := [("sec", trapDomain)]
    commandsState := FeatState.active
    contextState := FeatState.active }

theorem alwaysOn_included_when_no_global_match_witness :
    findMatchingKeywords "trap this" mfstC6w.globalExclude = [] ∧
      "sec" ∈ (matchDomains "trap this" mfstC6w).alwaysOn :=
  ⟨by decide,
   alwaysOn_included_when_no_global_match "trap this" mfstC6w "sec" trapDomain
     (by decide) (by decide) (by decide) (by decide)⟩

/-!  ### Claim C7  -/

/-- C7: if any global-suppression keyword matches the prompt, `matchDomains`
returns empty matched and per-domain-excluded maps, while star-command
tokens are still detected and the matching global keywords are reported. -/
theorem matchDomains_global_exclusion_short_circuit (prompt : String) (m : Manifest)
    (h : findMatchingKeywords prompt m.globalExclude ≠ []) :
    (matchDomains prompt m).matched = [] ∧
      (matchDomains prompt m).excluded = [] ∧
      (matchDomains prompt m).starCommands = detectStarCommands prompt ∧
      (matchDomains prompt m).globalExcluded = findMatchingKeywords prompt m.globalExclude := by
  have hne : m.globalExclude ≠ [] := by
    intro he
    exact h (by rw [he]; rfl)
  unfold matchDomains
  simp [hne, h]

/-- Manifest for the C7 witness: a global-suppression keyword plus a domain
that would otherwise be recalled by the same prompt. -/
def mfstC7w : Manifest :=
  { devmode := false
    globalExclude := ["stop"]
    domains := [("docs",
      { state := FeatState.active, alwaysOn := false, recallKws := ["stop"]
        exclude := [], paths := [], file := "docs.md" })]
    commandsState := FeatState.active
    contextState := FeatState.active }

theorem matchDomains_global_exclusion_short_circuit_witness :
    findMatchingKeywords "please stop *brief" mfstC7w.globalExclude ≠ [] ∧
      ((matchDomains "please stop *brief" mfstC7w).matched = [] ∧
        (matchDomains "please stop *brief" mfstC7w).excluded = [] ∧
        (matchDomains "please stop *brief" mfstC7w).starCommands =
          detectStarCommands "please stop *brief" ∧
        (matchDomains "please stop *brief" mfstC7w).globalExcluded =
          findMatchingKeywords "please stop *brief" mfstC7w.globalExclude) :=
  ⟨by decide,
   matchDomains_global_exclusion_short_circuit "please stop *brief" mfstC7w (by decide)⟩

/-!  ### Brackets — `src/src/engine/brackets.ts`  -/

/-- Context bracket names, least to most urgent. -/
inductive BracketName
  | FRESH
  | MODERATE
  | DEPLETED
  | CRITICAL
deriving DecidableEq

/-- One bracket definition from `context.json` (`ContextBracketSchema`). -/
structure ContextBracket where
  enabled : Bool
  rules : List String
deriving DecidableEq

/-- The prompt-count thresholds of `context.json`. -/
structure BracketThresholds where
  moderate : Nat
  depleted : Nat
  critical : Nat
deriving DecidableEq

/-- The three defined bracket rule sets (CRITICAL has none of its own). -/
structure BracketSet where
  fresh : ContextBracket
  moderate : ContextBracket
  depleted : ContextBracket
deriving DecidableEq

/-- The `context.json` fields consumed by `getBracket`; the trimming and
stats sub-configurations are modelled separately where they are used. -/
structure ContextFile where
  thresholds : BracketThresholds
  brackets : BracketSet
deriving DecidableEq

structure BracketResult where
  name : BracketName
  rules : List String
  threshold : Nat
deriving DecidableEq

/-- `getBracket(promptCount, context)`: resolve the context bracket from the
prompt count; CRITICAL reuses the depleted rules. -/
def getBracket (promptCount : Nat) (context : ContextFile) : BracketResult :=
  if promptCount ≥ context.thresholds.critical then
    { name := BracketName.CRITICAL
      rules := if context.brackets.depleted.enabled then context.brackets.depleted.rules else []
      threshold := context.thresholds.critical }
  else if promptCount ≥ context.thresholds.depleted then
    { name := BracketName.DEPLETED
      rules := if context.brackets.depleted.enabled then context.brackets.depleted.rules else []
      threshold := context.thresholds.depleted }
  else if promptCount ≥ context.thresholds.moderate then
    { name := BracketName.MODERATE
      rules := if context.brackets.moderate.enabled then context.brackets.moderate.rules else []
      threshold := context.thresholds.moderate }
  else
    { name := BracketName.FRESH
      rules := if context.brackets.fresh.enabled then context.brackets.fresh.rules else []
      threshold := 0 }

/-!  ### Claim C8  -/

/-- C8: with ascending thresholds, `getBracket` maps the prompt count
through the four ranges; CRITICAL reuses DEPLETED's rules verbatim; a
disabled bracket yields an empty rules list while the name and threshold
are still reported (visible in the `if … enabled` right-hand sides); with
thresholds {15, 35, 50}, count 40 is DEPLETED and count 51 is CRITICAL with
identical rules. -/
theorem getBracket_cases (ctx : ContextFile) (count : Nat)
    (hmd : ctx.thresholds.moderate ≤ ctx.thresholds.depleted)
    (hdc : ctx.thresholds.depleted ≤ ctx.thresholds.critical) :
    (count < ctx.thresholds.moderate →
      getBracket count ctx =
        { name := BracketName.FRESH
          rules := if ctx.brackets.fresh.enabled then ctx.brackets.fresh.rules else []
          threshold := 0 }) ∧
    (ctx.thresholds.moderate ≤ count → count < ctx.thresholds.depleted →
      getBracket count ctx =
        { name := BracketName.MODERATE
          rules := if ctx.brackets.moderate.enabled then ctx.brackets.moderate.rules else []
          threshold := ctx.thresholds.moderate }) ∧
    (ctx.thresholds.depleted ≤ count → count < ctx.thresholds.critical →
      getBracket count ctx =
        { name := BracketName.DEPLETED
          rules := if ctx.brackets.depleted.enabled then ctx.brackets.depleted.rules else []
          threshold := ctx.thresholds.depleted }) ∧
    (ctx.thresholds.critical ≤ count →
      getBracket count ctx =
        { name := BracketName.CRITICAL
          rules := if ctx.brackets.depleted.enabled then ctx.brackets.depleted.rules else []
          threshold := ctx.thresholds.critical }) ∧
    (∀ br : BracketSet,
      (getBracket 40 ⟨⟨15, 35, 50⟩, br⟩).name = BracketName.DEPLETED ∧
      (getBracket 51 ⟨⟨15, 35, 50⟩, br⟩).name = BracketName.CRITICAL ∧
      (getBracket 51 ⟨⟨15, 35, 50⟩, br⟩).rules = (getBracket 40 ⟨⟨15, 35, 50⟩, br⟩).rules) := by
  refine ⟨?_, ?_, ?_, ?_, ?_⟩
  · intro h
    unfold getBracket
    rw [if_neg (by omega), if_neg (by omega), if_neg (by omega)]
  · intro h1 h2
    unfold getBracket
    rw [if_neg (by omega), if_neg (by omega), if_pos (by omega)]
  · intro h1 h2
    unfold getBracket
    rw [if_neg (by omega), if_pos (by omega)]
  · intro h
    unfold getBracket
    rw [if_pos (by omega)]
  · intro br
    refine ⟨?_, ?_, ?_⟩ <;> simp [getBracket]

/-- Concrete context file used in the C8 witness. -/
def ctxC8w : ContextFile :=
  { thresholds := ⟨15, 35, 50⟩
    brackets :=
      { fresh := ⟨true, ["f"]⟩
        moderate := ⟨true, ["m"]⟩
        depleted := ⟨true, ["d"]⟩ } }

theorem getBracket_cases_witness :
    ctxC8w.thresholds.moderate ≤ ctxC8w.thresholds.depleted ∧
      ctxC8w.thresholds.depleted ≤ ctxC8w.thresholds.critical ∧
      getBracket 40 ctxC8w =
        { name := BracketName.DEPLETED
          rules := if ctxC8w.brackets.depleted.enabled then ctxC8w.brackets.depleted.rules else []
          threshold := ctxC8w.thresholds.depleted } :=
  ⟨by decide, by decide,
   (getBracket_cases ctxC8w 40 (by decide) (by decide)).2.2.1 (by decide) (by decide)⟩

/-!  ### Trimmer — the smart tool output trimmer in `src/src/engine/index.ts`

The trimmer mutates messages in place; here it is rendered as a function
from the message list to the new message list paired with the `TrimStats`
it returns.  Per-part stat deltas are summed; since the counters are
natural-number additions, the accumulation order of the source loop is
immaterial to the final stats value.  `role`/timestamp metadata of a
message is never read or written by the trimmer and is omitted from the
message model. -/

/-- Tool invocation lifecycle status. -/
inductive ToolStatus
  | pending
  | running
  | completed
  | error
deriving DecidableEq

/-- The tool input parameters the trimmer reads (`input.filePath`,
`input.command`, `input.pattern`); absent keys are `none`. -/
structure ToolInput where
  filePath : Option String
  command : Option String
  pattern : Option String
deriving DecidableEq

/-- `state.time` of a tool part; `compacted` is the already-reduced marker. -/
structure ToolTime where
  startT : Int
  endT : Int
  compacted : Option Int
deriving DecidableEq

/-- Tool part state (the completed-state fields; for non-completed states
the extra fields are simply never consulted, mirroring the structural
typing of the source). -/
structure ToolState where
  status : ToolStatus
  input : ToolInput
  output : String
  title : String
  time : ToolTime
deriving DecidableEq

/-- One message part: a tool invocation, plain text, or any other part type
(ignored by the trimmer). -/
inductive MsgPart
  | tool (toolName : String) (callID : String) (state : ToolState)
  | text (text : String)
  | otherPart (partType : String)
deriving DecidableEq

/-- One transcript record. -/
structure TransformMessage where
  parts : List MsgPart
deriving DecidableEq

/-- JS truthiness of an optional string (`undefined` and `""` are falsy):
models `const filePath = input.filePath; if (!filePath) …` and the
`(… as string) || fallback` idiom. -/
def truthyStr : Option String → Option String
  | some s => if s = "" then none else some s
  | none => none

/-- JS truthiness of an optional number (`undefined` and `0` are falsy):
models `if (completed.time.compacted) …`. -/
def truthyNum : Option Int → Bool
  | some t => t != 0
  | none => false

/-- File operation kinds catalogued by `TrimContext`. -/
inductive FileOpKind
  | read
  | edit
  | write
deriving DecidableEq

/-- One `TrimContext` catalog entry. -/
structure FileOp where
  filePath : String
  messageIndex : Nat
  op : FileOpKind
deriving DecidableEq

/-- Map a tool name to its catalogued operation kind, if any. -/
def toolOpKind (t : String) : Option FileOpKind :=
  if t = "read" then some FileOpKind.read
  else if t = "edit" then some FileOpKind.edit
  else if t = "write" then some FileOpKind.write
  else none

/-- Catalog entries contributed by one part (the `TrimContext` constructor
body): completed or errored tool parts with a truthy `filePath` input and a
read/edit/write tool name. -/
def partFileOps (mi : Nat) : MsgPart → List FileOp
  | MsgPart.tool toolName _ st =>
    if st.status = ToolStatus.completed ∨ st.status = ToolStatus.error then
      match truthyStr st.input.filePath with
      | some fp =>
        match toolOpKind toolName with
        | some k => [⟨fp, mi, k⟩]
        | none => []
      | none => []
    else []
  | _ => []

/-- The full `TrimContext` catalog, flattened.  The source groups entries in
a `Map` keyed by file path; both catalog queries below are existential over
the per-file entry lists, so the grouping is immaterial and a flat list is
an equivalent model. -/
def buildFileOps : Nat → List TransformMessage → List FileOp
  | _, [] => []
  | mi, m :: rest => (m.parts.map (partFileOps mi)).flatten ++ buildFileOps (mi + 1) rest

/-- `TrimContext.hasNewerRead`: was this file read in a strictly later
message? -/
def hasNewerRead (ops : List FileOp) (filePath : String) (messageIndex : Nat) : Bool :=
  ops.any (fun op =>
    (op.filePath == filePath) && (op.op == FileOpKind.read) &&
      decide (messageIndex < op.messageIndex))

/-- `TrimContext.wasEditedAfter`: was this file edited or written in a
strictly later message? -/
def wasEditedAfter (ops : List FileOp) (filePath : String) (messageIndex : Nat) : Bool :=
  ops.any (fun op =>
    (op.filePath == filePath) &&
      ((op.op == FileOpKind.edit) || (op.op == FileOpKind.write)) &&
      decide (messageIndex < op.messageIndex))

/-- `estimateTokens(text) = Math.ceil(text.length / 4)`. -/
def estimateTokens (s : String) : Nat := (s.length + 3) / 4

/-- `EPHEMERAL_TOOLS = new Set(["bash", "glob", "grep"])`. -/
def isEphemeralTool (t : String) : Bool := t == "bash" || t == "glob" || t == "grep"

/-- `scoreToolPart`: 0–100 where lower is more trimmable; parts that must
never be trimmed score 200. -/
def scoreToolPart (toolName : String) (st : ToolState)
    (messageIndex totalMessages : Nat) (ops : List FileOp) : Int :=
  if st.status ≠ ToolStatus.completed then 200
  else if truthyNum st.time.compacted then 200
  else
    let tokenEstimate := estimateTokens st.output
    if tokenEstimate < 100 then 200
    else
      let turnsAgo : Int := (totalMessages : Int) - 1 - (messageIndex : Int)
      let s1 : Int := 100 - turnsAgo * 6
      let s2 : Int :=
        if toolName = "read" then
          match truthyStr st.input.filePath with
          | some fp => if hasNewerRead ops fp messageIndex then s1 - 60 else s1
          | none => s1
        else s1
      let s3 : Int :=
        if toolName = "read" then
          match truthyStr st.input.filePath with
          | some fp => if wasEditedAfter ops fp messageIndex then s2 - 50 else s2
          | none => s2
        else s2
      let s4 : Int :=
        if tokenEstimate > 2000 then s3 - 15
        else if tokenEstimate > 500 then s3 - 8 else s3
      let s5 : Int := if isEphemeralTool toolName then s4 - 10 else s4
      max 0 s5

/-- `output.split("\n").length`. -/
def countLines (s : String) : Nat := (s.data.filter (fun c => c = '\n')).length + 1

/-- `buildTrimSummary(toolPart, tokensSaved)`: the tool-type-specific
replacement text. -/
def buildTrimSummary (toolName : String) (st : ToolState) (tokensSaved : Nat) : String :=
  if toolName = "read" then
    let filePath := (truthyStr st.input.filePath).getD "unknown file"
    "[Trimmed by OpenCarly] Read " ++ filePath ++ " (" ++ toString (countLines st.output) ++
      " lines, ~" ++ toString tokensSaved ++ " tokens saved)\n" ++
      "Re-read this file if its contents are needed."
  else if toolName = "bash" then
    let command := (truthyStr st.input.command).getD "unknown command"
    let shortCmd : String :=
      if command.length > 80 then (⟨command.data.take 77⟩ : String) ++ "..." else command
    "[Trimmed by OpenCarly] Ran: " ++ shortCmd ++ " (~" ++ toString tokensSaved ++
      " tokens saved)\n" ++ "Re-run this command if output is needed."
  else if toolName = "glob" || toolName = "grep" then
    let pat := (truthyStr st.input.pattern).getD ""
    "[Trimmed by OpenCarly] " ++ toolName ++ ": " ++ pat ++ " (~" ++ toString tokensSaved ++
      " tokens saved)\n" ++ "Re-run this search if results are needed."
  else
    let title := if st.title = "" then toolName else st.title
    "[Trimmed by OpenCarly] " ++ title ++ " (~" ++ toString tokensSaved ++
      " tokens saved)\n" ++ "Tool output trimmed from history."

/-- The in-history rules block markers. -/
def carlyOpenTag : String := "<carly-rules>"

def carlyCloseTag : String := "</carly-rules>"

/-- One left-to-right pass of
`text.replace(/<carly-rules>[\s\S]*?<\/carly-rules>/g, "")`: find the
leftmost open tag, lazily the first close tag after it, delete through the
close tag, and continue scanning after the deleted region (replaced output
is not rescanned).  If an open tag has no close tag after it, no later open
tag can have one either, so the remainder is left unchanged.  Fuel keeps
the recursion structural; each removal consumes at least 27 characters. -/
def stripCarlyAux : Nat → List Char → List Char
  | 0, cs => cs
  | fuel + 1, cs =>
    match findSub carlyOpenTag.data cs with
    | none => cs
    | some p =>
      let afterOpen := cs.drop (p + 13)
      match findSub carlyCloseTag.data afterOpen with
      | none => cs
      | some k => cs.take p ++ stripCarlyAux fuel (afterOpen.drop (k + 14))

/-- Remove every `<carly-rules>…</carly-rules>` block (the global-regex
replace of the source). -/
def stripCarlyBlocks (s : String) : String := ⟨stripCarlyAux s.data.length s.data⟩

/-- `TrimStats` returned by `trimMessageHistory`. -/
structure TrimStats where
  partsTrimmed : Nat
  tokensSaved : Nat
  carlyBlocksStripped : Nat
  carlyTokensSaved : Nat
deriving DecidableEq

def TrimStats.zero : TrimStats := ⟨0, 0, 0, 0⟩

def TrimStats.add (a b : TrimStats) : TrimStats :=
  ⟨a.partsTrimmed + b.partsTrimmed, a.tokensSaved + b.tokensSaved,
   a.carlyBlocksStripped + b.carlyBlocksStripped, a.carlyTokensSaved + b.carlyTokensSaved⟩

/-- Trimming aggressiveness modes (`TrimmingConfigSchema.mode`). -/
inductive TrimMode
  | conservative
  | moderate
  | aggressive
deriving DecidableEq

/-- `TRIM_THRESHOLDS` of `src/unnamed/part_006` (the `?? 40` fallback of the
source is unreachable once the mode is typed as the three-valued enum). -/
def trimThreshold : TrimMode → Int
  | TrimMode.conservative => 20
  | TrimMode.moderate => 40
  | TrimMode.aggressive => 60

/-- `TrimmingConfigSchema`. -/
structure TrimmingConfig where
  enabled : Bool
  mode : TrimMode
  preserveLastN : Nat
deriving DecidableEq

/-- The loop-invariant data of one `trimMessageHistory` run. -/
structure TrimArgs where
  ops : List FileOp
  threshold : Int
  totalMessages : Nat
  protectedStart : Nat
  now : Int
deriving DecidableEq

/-- The body of the per-part loop of `trimMessageHistory`: the part's new
value and its contribution to the stats.  Text parts are processed in every
message; tool parts are skipped inside the protected tail. -/
def processPart (a : TrimArgs) (mi : Nat) : MsgPart → MsgPart × TrimStats
  | MsgPart.text t =>
    if strIncludes t carlyOpenTag then
      let newText := trimStr (stripCarlyBlocks t)
      if newText ≠ t then
        (MsgPart.text newText,
         ⟨0, 0, 1, estimateTokens t - estimateTokens newText⟩)
      else (MsgPart.text newText, TrimStats.zero)
    else (MsgPart.text t, TrimStats.zero)
  | MsgPart.tool toolName callID st =>
    if mi ≥ a.protectedStart then (MsgPart.tool toolName callID st, TrimStats.zero)
    else
      let score := scoreToolPart toolName st mi a.totalMessages a.ops
      if score < a.threshold then
        let tokensBefore := estimateTokens st.output
        let summary := buildTrimSummary toolName st tokensBefore
        let st' : ToolState :=
          { st with
              output := summary
              time := { st.time with compacted := some a.now } }
        (MsgPart.tool toolName callID st',
         ⟨1, tokensBefore - estimateTokens summary, 0, 0⟩)
      else (MsgPart.tool toolName callID st, TrimStats.zero)
  | MsgPart.otherPart ty => (MsgPart.otherPart ty, TrimStats.zero)

/-- The per-part loop over one message's parts. -/
def processParts (a : TrimArgs) (mi : Nat) : List MsgPart → List MsgPart × TrimStats
  | [] => ([], TrimStats.zero)
  | p :: ps =>
    let r := processPart a mi p
    let rs := processParts a mi ps
    (r.1 :: rs.1, r.2.add rs.2)

/-- The per-message loop. -/
def processMessages (a : TrimArgs) : Nat → List TransformMessage →
    List TransformMessage × TrimStats
  | _, [] => ([], TrimStats.zero)
  | mi, m :: rest =>
    let r := processParts a mi m.parts
    let rs := processMessages a (mi + 1) rest
    (⟨r.1⟩ :: rs.1, r.2.add rs.2)

/-- The loop data computed at the top of `trimMessageHistory`:
`threshold`, `totalMessages`, `protectedStart = Math.max(0, total -
preserveLastN)` (the truncated natural subtraction), and the `TrimContext`
catalog. -/
def trimArgsOf (messages : List TransformMessage) (config : TrimmingConfig)
    (now : Int) : TrimArgs :=
  { ops := buildFileOps 0 messages
    threshold := trimThreshold config.mode
    totalMessages := messages.length
    protectedStart := messages.length - config.preserveLastN
    now := now }

/-- `trimMessageHistory(messages, config)`, with the wall clock passed
explicitly (`now` models the `Date.now()` stamped into the compacted
marker). -/
def trimMessageHistory (messages : List TransformMessage) (config : TrimmingConfig)
    (now : Int) : List TransformMessage × TrimStats :=
  if !config.enabled then (messages, TrimStats.zero)
  else processMessages (trimArgsOf messages config now) 0 messages

/-!  ### Structural lemmas about the trimmer  -/

theorem processParts_fst (a : TrimArgs) (mi : Nat) (ps : List MsgPart) :
    (processParts a mi ps).1 = ps.map (fun p => (processPart a mi p).1) := by
  induction ps with
  | nil => rfl
  | cons p ps ih => simp [processParts, ih]

theorem processMessages_get (a : TrimArgs) (msgs : List TransformMessage) :
    ∀ (mi0 i : Nat),
      (processMessages a mi0 msgs).1.get? i =
        (msgs.get? i).map (fun m =>
          (⟨(processParts a (mi0 + i) m.parts).1⟩ : TransformMessage)) := by
  induction msgs with
  | nil => intro mi0 i; rfl
  | cons m rest ih =>
    intro mi0 i
    cases i with
    | zero => simp [processMessages]
    | succ i =>
      have h := ih (mi0 + 1) i
      have harith : mi0 + 1 + i = mi0 + (i + 1) := by omega
      simp only [processMessages, List.get?]
      rw [h, harith]

theorem processMessages_length (a : TrimArgs) (msgs : List TransformMessage) :
    ∀ mi0, (processMessages a mi0 msgs).1.length = msgs.length := by
  induction msgs with
  | nil => intro mi0; rfl
  | cons m rest ih => intro mi0; simp [processMessages, ih]

theorem partFileOps_processPart (a : TrimArgs) (mi mi' : Nat) (p : MsgPart) :
    partFileOps mi ((processPart a mi' p).1) = partFileOps mi p := by
  cases p with
  | text t =>
    by_cases h1 : strIncludes t carlyOpenTag
    · by_cases h2 : trimStr (stripCarlyBlocks t) ≠ t
      · simp [processPart, h1, h2, partFileOps]
      · simp [processPart, h1, h2, partFileOps]
    · simp [processPart, h1, partFileOps]
  | tool tn cid st =>
    by_cases h1 : mi' ≥ a.protectedStart
    · simp [processPart, h1]
    · by_cases h2 : scoreToolPart tn st mi' a.totalMessages a.ops < a.threshold
      · simp [processPart, h1, h2, partFileOps]
      · simp [processPart, h1, h2]
  | otherPart ty => rfl

theorem map_partFileOps_processParts (a : TrimArgs) (mi mi' : Nat) (ps : List MsgPart) :
    ((processParts a mi' ps).1.map (partFileOps mi)) = ps.map (partFileOps mi) := by
  induction ps with
  | nil => rfl
  | cons p ps ih =>
    simp [processParts, ih, partFileOps_processPart]

theorem buildFileOps_processMessages (a : TrimArgs) (msgs : List TransformMessage) :
    ∀ k, buildFileOps k ((processMessages a k msgs).1) = buildFileOps k msgs := by
  induction msgs with
  | nil => intro k; rfl
  | cons m rest ih =>
    intro k
    simp only [processMessages, buildFileOps]
    rw [ih (k + 1), map_partFileOps_processParts]

/-!  ### Claim C10  -/

/-- C10: with trimming disabled, `trimMessageHistory` returns the transcript
unchanged (no tool-output replacement, no carly-rules stripping anywhere)
together with all-zero stats, for every transcript, mode, tail size and
clock value. -/
theorem trimMessageHistory_disabled_noop (messages : List TransformMessage)
    (mode : TrimMode) (preserveLastN : Nat) (now : Int) :
    trimMessageHistory messages ⟨false, mode, preserveLastN⟩ now =
      (messages, TrimStats.zero) := rfl

/-!  ### Claim C4  -/

/-- The transformation every part undergoes inside the protected tail: text
parts have their carly-rules blocks stripped, everything else is untouched. -/
def stripTextOnly (p : MsgPart) : MsgPart :=
  match p with
  | MsgPart.text t =>
    MsgPart.text (if strIncludes t carlyOpenTag then trimStr (stripCarlyBlocks t) else t)
  | p => p

/-- Transcript for the C4 counterexample: a single message — necessarily
among the last `preserveLastN = 1` — whose text part holds a rules block. -/
def msgsC4 : List TransformMessage :=
  [⟨[MsgPart.text "<carly-rules>abc</carly-rules>"]⟩]

/-- Trimming config for the C4 counterexample. -/
def cfgC4 : TrimmingConfig := ⟨true, TrimMode.moderate, 1⟩

/-- C4 counterexample: with `preserveLastN = 1` the single (hence last)
message is still mutated by `trimMessageHistory` — its text part's
carly-rules block is stripped — so the protected tail is not exempt from
every mutation. -/
theorem trim_mutates_text_in_protected_tail :
    (trimMessageHistory msgsC4 cfgC4 1).1 ≠ msgsC4 ∧
      msgsC4.length = 1 ∧ cfgC4.preserveLastN = 1 := by
  decide

/-- C4 (amended): inside the protected tail (the last `preserveLastN`
records) `trimMessageHistory` never mutates tool parts (or any non-text
part) for any scoring configuration; text parts are the sole exception and
only via carly-rules-block stripping, which by design applies to every
record regardless of tail protection. -/
theorem trim_protected_tail_tool_parts_unchanged (messages : List TransformMessage)
    (config : TrimmingConfig) (now : Int) (i : Nat) (m : TransformMessage)
    (hen : config.enabled = true)
    (hi : messages.get? i = some m)
    (htail : messages.length - config.preserveLastN ≤ i) :
    (trimMessageHistory messages config now).1.get? i =
        some ⟨m.parts.map stripTextOnly⟩ ∧
      ∀ p ∈ m.parts, (∀ t, p ≠ MsgPart.text t) → stripTextOnly p = p := by
  constructor
  · simp only [trimMessageHistory, trimArgsOf, hen, Bool.not_true, Bool.false_eq_true, if_false]
    rw [processMessages_get, hi]
    simp only [Option.map_some', Nat.zero_add]
    rw [processParts_fst]
    congr 2
    apply List.map_congr_left
    intro p _
    cases p with
    | text t =>
      by_cases h1 : strIncludes t carlyOpenTag
      · by_cases h2 : trimStr (stripCarlyBlocks t) ≠ t
        · simp [processPart, stripTextOnly, h1, h2]
        · rw [not_not] at h2
          simp [processPart, stripTextOnly, h1, h2]
      · simp [processPart, stripTextOnly, h1]
    | tool tn cid st =>
      have hge : i ≥ messages.length - config.preserveLastN := htail
      simp [processPart, stripTextOnly, hge]
    | otherPart ty => simp [processPart, stripTextOnly]
  · intro p _ hnt
    cases p with
    | text t => exact absurd rfl (hnt t)
    | tool tn cid st => rfl
    | otherPart ty => rfl

/-- Tool state used in the C4 witness message. -/
def toolStateC4w : ToolState :=
  { status := ToolStatus.completed
    input := ⟨some "a.py", none, none⟩
    output := "output"
    title := "Read a.py"
    time := ⟨0, 0, none⟩ }

/-- Transcript for the C4 witness: one protected message holding a text part
and a tool part. -/
def msgsC4w : List TransformMessage :=
  [⟨[MsgPart.text "<carly-rules>z</carly-rules>", MsgPart.tool "read" "c1" toolStateC4w]⟩]

theorem trim_protected_tail_tool_parts_unchanged_witness :
    cfgC4.enabled = true ∧
      msgsC4w.get? 0 = some ⟨[MsgPart.text "<carly-rules>z</carly-rules>",
        MsgPart.tool "read" "c1" toolStateC4w]⟩ ∧
      msgsC4w.length - cfgC4.preserveLastN ≤ 0 ∧
      (trimMessageHistory msgsC4w cfgC4 1).1.get? 0 =
        some ⟨[MsgPart.text "<carly-rules>z</carly-rules>",
          MsgPart.tool "read" "c1" toolStateC4w].map stripTextOnly⟩ :=
  ⟨rfl, rfl, by decide,
   (trim_protected_tail_tool_parts_unchanged msgsC4w cfgC4 1 0
      ⟨[MsgPart.text "<carly-rules>z</carly-rules>", MsgPart.tool "read" "c1" toolStateC4w]⟩
      rfl rfl (by decide)).1⟩


/-!  ### Claim C3  -/

/-- A 400-character tool output (estimate exactly 100 tokens). -/
def bigOut : String := ⟨List.replicate 400 'a'⟩

/-- Completed, uncompacted read of `a.py` with a ≥100-token output. -/
def readState8 : ToolState :=
  { status := ToolStatus.completed
    input := ⟨some "a.py", none, none⟩
    output := bigOut
    title := "Read a.py"
    time := ⟨0, 0, none⟩ }

/-- A later, tiny read of the same file (supersedes the first). -/
def readState9 : ToolState :=
  { status := ToolStatus.completed
    input := ⟨some "a.py", none, none⟩
    output := "hi"
    title := "Read a.py"
    time := ⟨0, 0, none⟩ }

def emptyMsg : TransformMessage := ⟨[]⟩

/-- Transcript for the C3 counterexample: 12 records; the superseded big
read sits at index 8, inside the protected tail (protectedStart = 7). -/
def msgsC3 : List TransformMessage :=
  [emptyMsg, emptyMsg, emptyMsg, emptyMsg, emptyMsg, emptyMsg, emptyMsg, emptyMsg,
   ⟨[MsgPart.tool "read" "c8" readState8]⟩,
   ⟨[MsgPart.tool "read" "c9" readState9]⟩,
   emptyMsg, emptyMsg]

def cfgC3 : TrimmingConfig := ⟨true, TrimMode.moderate, 5⟩

set_option maxRecDepth 20000 in
/-- C3 counterexample: the completed, uncompacted, ≥100-token read at index
8 scores 22 < 40 (mode threshold), yet `trimMessageHistory` replaces
nothing — the record lies in the protected tail — so "replaced iff the
score is strictly below the mode threshold" fails as stated. -/
theorem trim_score_below_threshold_not_replaced_in_tail :
    trimMessageHistory msgsC3 cfgC3 1 = (msgsC3, TrimStats.zero) ∧
      scoreToolPart "read" readState8 8 msgsC3.length (buildFileOps 0 msgsC3) = 22 ∧
      trimThreshold cfgC3.mode = 40 ∧
      readState8.status = ToolStatus.completed ∧
      truthyNum readState8.time.compacted = false ∧
      100 ≤ estimateTokens readState8.output ∧
      msgsC3.length - cfgC3.preserveLastN ≤ 8 := by
  decide

/-- Claim C3's first file factor: this is a read of a file read again at a
later record. -/
def isSupersededRead (ops : List FileOp) (toolName : String) (st : ToolState)
    (mi : Nat) : Bool :=
  (toolName == "read") &&
    (match truthyStr st.input.filePath with
     | some fp => hasNewerRead ops fp mi
     | none => false)

/-- Claim C3's second file factor: this is a read of a file edited or
written at a later record. -/
def isStaleRead (ops : List FileOp) (toolName : String) (st : ToolState)
    (mi : Nat) : Bool :=
  (toolName == "read") &&
    (match truthyStr st.input.filePath with
     | some fp => wasEditedAfter ops fp mi
     | none => false)

/-- Modelled from the claim wording of C3: the trim score as
`max(0, 100 − 6·d − 60·[superseded] − 50·[stale] − s − 10·[ephemeral])`
with `s = 15` above 2000 estimated tokens, else `8` above 500, else `0`;
`d` is the number of records between the part's record and the end of the
transcript (passed below as `total − 1 − i`). -/
def trimScoreSpec (toolName : String) (st : ToolState) (d : Int)
    (superseded stale : Bool) : Int :=
  max 0 (100 - 6 * d - (if superseded then 60 else 0) -
    (if stale then 50 else 0) -
    (if estimateTokens st.output > 2000 then 15
     else if estimateTokens st.output > 500 then 8 else 0) -
    (if isEphemeralTool toolName then 10 else 0))

/-- C3 (amended): a completed, uncompacted tool part of ≥100 estimated
tokens scores exactly the claim's formula, and is replaced by its summary
iff it lies outside the protected tail AND the score is strictly below the
mode threshold (conservative 20, moderate 40, aggressive 60); parts below
the 100-token floor, non-completed parts, and already-compacted parts score
200 and are never replaced. -/
theorem trim_replaces_iff_scored_below_outside_tail
    (messages : List TransformMessage) (config : TrimmingConfig) (now : Int)
    (i j : Nat) (m : TransformMessage) (toolName callID : String) (st : ToolState)
    (hen : config.enabled = true)
    (hm : messages.get? i = some m)
    (hp : m.parts.get? j = some (MsgPart.tool toolName callID st)) :
    (((trimMessageHistory messages config now).1.get? i).bind
        (fun m2 => m2.parts.get? j) =
      some (if i < messages.length - config.preserveLastN ∧
              scoreToolPart toolName st i messages.length (buildFileOps 0 messages) <
                trimThreshold config.mode
            then MsgPart.tool toolName callID
              { st with
                  output := buildTrimSummary toolName st (estimateTokens st.output)
                  time := { st.time with compacted := some now } }
            else MsgPart.tool toolName callID st)) ∧
    (st.status ≠ ToolStatus.completed ∨ truthyNum st.time.compacted = true ∨
        estimateTokens st.output < 100 →
      scoreToolPart toolName st i messages.length (buildFileOps 0 messages) = 200) ∧
    (st.status = ToolStatus.completed → truthyNum st.time.compacted = false →
        100 ≤ estimateTokens st.output →
      scoreToolPart toolName st i messages.length (buildFileOps 0 messages) =
        trimScoreSpec toolName st ((messages.length : Int) - 1 - (i : Int))
          (isSupersededRead (buildFileOps 0 messages) toolName st i)
          (isStaleRead (buildFileOps 0 messages) toolName st i)) ∧
    (trimThreshold TrimMode.conservative = 20 ∧ trimThreshold TrimMode.moderate = 40 ∧
      trimThreshold TrimMode.aggressive = 60) := by
  refine ⟨?_, ?_, ?_, rfl, rfl, rfl⟩
  · simp only [trimMessageHistory, trimArgsOf, hen, Bool.not_true, Bool.false_eq_true, if_false]
    rw [processMessages_get, hm]
    simp only [Option.map_some', Nat.zero_add, Option.some_bind]
    rw [processParts_fst, List.get?_map, hp]
    simp only [Option.map_some']
    by_cases hge : i ≥ messages.length - config.preserveLastN
    · have hcond : ¬(i < messages.length - config.preserveLastN ∧
          scoreToolPart toolName st i messages.length (buildFileOps 0 messages) <
            trimThreshold config.mode) := fun hc => absurd hc.1 (by omega)
      rw [if_neg hcond]
      simp [processPart, hge]
    · have hlt : i < messages.length - config.preserveLastN := by omega
      by_cases hsc : scoreToolPart toolName st i messages.length (buildFileOps 0 messages) <
          trimThreshold config.mode
      · rw [if_pos ⟨hlt, hsc⟩]
        simp [processPart, hge, hsc]
      · rw [if_neg (fun hc => absurd hc.2 hsc)]
        simp [processPart, hge, hsc]
  · intro h
    rcases h with h | h | h
    · simp [scoreToolPart, h]
    · simp [scoreToolPart, h]
    · simp [scoreToolPart, h]
  · intro h1 h2 h3
    have hno : ¬(st.status ≠ ToolStatus.completed) := by simp [h1]
    have hce : ¬(truthyNum st.time.compacted = true) := by simp [h2]
    rw [scoreToolPart, if_neg hno, if_neg hce, if_neg (Nat.not_lt.mpr h3)]
    unfold trimScoreSpec isSupersededRead isStaleRead
    by_cases hr : toolName = "read"
    · cases hfp : truthyStr st.input.filePath with
      | none =>
        simp [hr, hfp] <;> split_ifs <;> omega
      | some fp =>
        simp only [hr, hfp, beq_self_eq_true, Bool.true_and]
        split_ifs <;> omega
    · have hr2 : (toolName == "read") = false := by simpa using hr
      simp [hr2, hr] <;> split_ifs <;> omega

/-- Transcript for the C3 witness: a superseded big read at index 0,
outside the protected tail of 5 records with `preserveLastN = 3`. -/
def msgsC3w : List TransformMessage :=
  [⟨[MsgPart.tool "read" "c0" readState8]⟩,
   ⟨[MsgPart.tool "read" "c1" readState9]⟩,
   emptyMsg, emptyMsg, emptyMsg]

def cfgC3w : TrimmingConfig := ⟨true, TrimMode.moderate, 3⟩

theorem trim_replaces_iff_scored_below_outside_tail_witness :
    cfgC3w.enabled = true ∧
      (((trimMessageHistory msgsC3w cfgC3w 7).1.get? 0).bind
          (fun m2 => m2.parts.get? 0) =
        some (if 0 < msgsC3w.length - cfgC3w.preserveLastN ∧
                scoreToolPart "read" readState8 0 msgsC3w.length (buildFileOps 0 msgsC3w) <
                  trimThreshold cfgC3w.mode
              then MsgPart.tool "read" "c0"
                { readState8 with
                    output := buildTrimSummary "read" readState8 (estimateTokens readState8.output)
                    time := { readState8.time with compacted := some 7 } }
              else MsgPart.tool "read" "c0" readState8)) :=
  ⟨rfl,
   (trim_replaces_iff_scored_below_outside_tail msgsC3w cfgC3w 7 0 0
      ⟨[MsgPart.tool "read" "c0" readState8]⟩ "read" "c0" readState8 rfl rfl rfl).1⟩

/-!  ### Claim C5  -/

/-- Text whose single-pass global-regex strip splices the surrounding
fragments into a fresh strippable block. -/
def txtC5 : String := "<carly-rul<carly-rules>X</carly-rules>es>Y</carly-rules>"

def msgsC5 : List TransformMessage := [⟨[MsgPart.text txtC5]⟩]

def cfgC5 : TrimmingConfig := ⟨true, TrimMode.moderate, 3⟩

/-- C5 counterexample: the first `trimMessageHistory` call strips the inner
carly-rules block, leaving text that itself reads `<carly-rules>Y</carly-rules>`;
a second call on the already-processed transcript strips again, so the
second call does perform an additional mutation (while still reporting zero
tool parts trimmed). -/
theorem trim_second_call_mutates :
    (trimMessageHistory (trimMessageHistory msgsC5 cfgC5 1).1 cfgC5 1).1 ≠
        (trimMessageHistory msgsC5 cfgC5 1).1 ∧
      (trimMessageHistory (trimMessageHistory msgsC5 cfgC5 1).1 cfgC5 1).2.carlyBlocksStripped = 1 ∧
      (trimMessageHistory (trimMessageHistory msgsC5 cfgC5 1).1 cfgC5 1).2.partsTrimmed = 0 := by
  decide

/-!  Second-pass lemmas for the amended C5.  -/

theorem processPart_text_stats (a : TrimArgs) (mi : Nat) (t : String) :
    (processPart a mi (MsgPart.text t)).2.partsTrimmed = 0 ∧
      (processPart a mi (MsgPart.text t)).2.tokensSaved = 0 := by
  simp only [processPart]
  split_ifs <;> exact ⟨rfl, rfl⟩

theorem processPart_text_shape (a : TrimArgs) (mi : Nat) (t : String) :
    ∃ t2, (processPart a mi (MsgPart.text t)).1 = MsgPart.text t2 := by
  simp only [processPart]
  split_ifs <;> exact ⟨_, rfl⟩

theorem scoreToolPart_compacted (toolName : String) (st : ToolState)
    (mi total : Nat) (ops : List FileOp)
    (h : truthyNum st.time.compacted = true) :
    scoreToolPart toolName st mi total ops = 200 := by
  simp [scoreToolPart, h]

/-- One part of the already-processed transcript, processed again with the
same loop data: the stats contribution has zero tool parts trimmed and zero
tool tokens saved, and any tool part is returned unchanged. -/
theorem processPart_pass2 (a : TrimArgs) (mi : Nat) (p : MsgPart)
    (hthr : a.threshold ≤ 60) (hnow : a.now ≠ 0) :
    ((processPart a mi ((processPart a mi p).1)).2.partsTrimmed = 0 ∧
      (processPart a mi ((processPart a mi p).1)).2.tokensSaved = 0) ∧
    (∀ tn cid st, (processPart a mi p).1 = MsgPart.tool tn cid st →
      (processPart a mi ((processPart a mi p).1)).1 = MsgPart.tool tn cid st) := by
  cases p with
  | text t =>
    obtain ⟨t2, ht2⟩ := processPart_text_shape a mi t
    rw [ht2]
    refine ⟨processPart_text_stats a mi t2, ?_⟩
    intro tn cid st heq
    cases heq
  | otherPart ty =>
    exact ⟨⟨rfl, rfl⟩, fun tn cid st heq => by simp [processPart] at heq⟩
  | tool tn cid st =>
    by_cases hprot : mi ≥ a.protectedStart
    · have h1 : (processPart a mi (MsgPart.tool tn cid st)).1 = MsgPart.tool tn cid st := by
        simp [processPart, hprot]
      have h2 : processPart a mi (MsgPart.tool tn cid st) =
          (MsgPart.tool tn cid st, TrimStats.zero) := by
        simp [processPart, hprot]
      rw [h1, h2]
      exact ⟨⟨rfl, rfl⟩, fun _ _ _ hx => hx⟩
    · by_cases hsc : scoreToolPart tn st mi a.totalMessages a.ops < a.threshold
      · have h1 : (processPart a mi (MsgPart.tool tn cid st)).1 =
            MsgPart.tool tn cid
              { st with
                  output := buildTrimSummary tn st (estimateTokens st.output)
                  time := { st.time with compacted := some a.now } } := by
          simp [processPart, hprot, hsc]
        have hs2 : scoreToolPart tn
            { st with
                output := buildTrimSummary tn st (estimateTokens st.output)
                time := { st.time with compacted := some a.now } }
            mi a.totalMessages a.ops = 200 := by
          apply scoreToolPart_compacted
          simp [truthyNum, bne_iff_ne, hnow]
        have hnot : ¬(scoreToolPart tn
            { st with
                output := buildTrimSummary tn st (estimateTokens st.output)
                time := { st.time with compacted := some a.now } }
            mi a.totalMessages a.ops < a.threshold) := by
          rw [hs2]; omega
        have h2 : processPart a mi (MsgPart.tool tn cid
            { st with
                output := buildTrimSummary tn st (estimateTokens st.output)
                time := { st.time with compacted := some a.now } }) =
            (MsgPart.tool tn cid
              { st with
                  output := buildTrimSummary tn st (estimateTokens st.output)
                  time := { st.time with compacted := some a.now } },
             TrimStats.zero) := by
          simp [processPart, hprot, hnot]
        rw [h1, h2]
        exact ⟨⟨rfl, rfl⟩, fun _ _ _ hx => hx⟩
      · have h1 : (processPart a mi (MsgPart.tool tn cid st)).1 = MsgPart.tool tn cid st := by
          simp [processPart, hprot, hsc]
        have h2 : processPart a mi (MsgPart.tool tn cid st) =
            (MsgPart.tool tn cid st, TrimStats.zero) := by
          simp [processPart, hprot, hsc]
        rw [h1, h2]
        exact ⟨⟨rfl, rfl⟩, fun _ _ _ hx => hx⟩

theorem processParts_pass2_stats (a : TrimArgs) (mi : Nat)
    (hthr : a.threshold ≤ 60) (hnow : a.now ≠ 0) (ps : List MsgPart) :
    (processParts a mi ((processParts a mi ps).1)).2.partsTrimmed = 0 ∧
      (processParts a mi ((processParts a mi ps).1)).2.tokensSaved = 0 := by
  induction ps with
  | nil => exact ⟨rfl, rfl⟩
  | cons p ps ih =>
    have hp := (processPart_pass2 a mi p hthr hnow).1
    simp only [processParts]
    constructor
    · show (processPart a mi ((processPart a mi p).1)).2.partsTrimmed +
        (processParts a mi ((processParts a mi ps).1)).2.partsTrimmed = 0
      omega
    · show (processPart a mi ((processPart a mi p).1)).2.tokensSaved +
        (processParts a mi ((processParts a mi ps).1)).2.tokensSaved = 0
      omega

theorem processMessages_pass2_stats (a : TrimArgs)
    (hthr : a.threshold ≤ 60) (hnow : a.now ≠ 0) :
    ∀ (mi : Nat) (msgs : List TransformMessage),
      (processMessages a mi ((processMessages a mi msgs).1)).2.partsTrimmed = 0 ∧
        (processMessages a mi ((processMessages a mi msgs).1)).2.tokensSaved = 0 := by
  intro mi msgs
  induction msgs generalizing mi with
  | nil => exact ⟨rfl, rfl⟩
  | cons m rest ih =>
    have hp := processParts_pass2_stats a mi hthr hnow m.parts
    have hr := ih (mi + 1)
    simp only [processMessages]
    constructor
    · show (processParts a mi ((processParts a mi m.parts).1)).2.partsTrimmed +
        (processMessages a (mi + 1) ((processMessages a (mi + 1) rest).1)).2.partsTrimmed = 0
      omega
    · show (processParts a mi ((processParts a mi m.parts).1)).2.tokensSaved +
        (processMessages a (mi + 1) ((processMessages a (mi + 1) rest).1)).2.tokensSaved = 0
      omega

theorem trimThreshold_le_60 (mode : TrimMode) : trimThreshold mode ≤ 60 := by
  cases mode <;> decide

theorem processMessages_pass2_get (a : TrimArgs)
    (hthr : a.threshold ≤ 60) (hnow : a.now ≠ 0)
    (mi : Nat) (msgs : List TransformMessage) (i j : Nat)
    (tn cid : String) (st : ToolState)
    (hget : (((processMessages a mi msgs).1.get? i).bind
        (fun m2 => m2.parts.get? j)) = some (MsgPart.tool tn cid st)) :
    (((processMessages a mi ((processMessages a mi msgs).1)).1.get? i).bind
        (fun m2 => m2.parts.get? j)) = some (MsgPart.tool tn cid st) := by
  rw [processMessages_get a msgs mi i] at hget
  cases hmi : msgs.get? i with
  | none => rw [hmi] at hget; simp at hget
  | some m =>
    rw [hmi] at hget
    simp only [Option.map_some', Option.some_bind] at hget
    rw [processParts_fst, List.get?_map] at hget
    cases hpj : m.parts.get? j with
    | none => rw [hpj] at hget; simp at hget
    | some p =>
      rw [hpj] at hget
      simp only [Option.map_some', Option.some.injEq] at hget
      rw [processMessages_get a ((processMessages a mi msgs).1) mi i,
        processMessages_get a msgs mi i, hmi]
      simp only [Option.map_some', Option.some_bind]
      rw [processParts_fst a (mi + i) ((processParts a (mi + i) m.parts).1),
        List.get?_map, processParts_fst a (mi + i) m.parts, List.get?_map, hpj]
      simp only [Option.map_some', Option.some.injEq]
      exact (processPart_pass2 a (mi + i) p hthr hnow).2 tn cid st hget

/-- C5 (amended): a second `trimMessageHistory` call on the transcript it
already processed, with the same config and a non-zero clock, trims zero
tool parts (`partsTrimmed = 0`, `tokensSaved = 0`) and leaves every tool
part unchanged — every record replaced in the first pass carries the
compacted timestamp and rescores 200.  Text parts are exempt: carly-rules
stripping may act again when a first-pass removal splices the surrounding
fragments into a new marker pair (see the counterexample). -/
theorem trim_second_pass_no_tool_mutation (messages : List TransformMessage)
    (config : TrimmingConfig) (now : Int) (hnow : now ≠ 0) :
    (trimMessageHistory ((trimMessageHistory messages config now).1) config now).2.partsTrimmed
        = 0 ∧
    (trimMessageHistory ((trimMessageHistory messages config now).1) config now).2.tokensSaved
        = 0 ∧
    (∀ i j tn cid st,
      (((trimMessageHistory messages config now).1.get? i).bind
          (fun m2 => m2.parts.get? j)) = some (MsgPart.tool tn cid st) →
      (((trimMessageHistory ((trimMessageHistory messages config now).1) config now).1.get? i).bind
          (fun m2 => m2.parts.get? j)) = some (MsgPart.tool tn cid st)) := by
  by_cases hen : config.enabled = true
  · have e1 : ∀ msgs : List TransformMessage,
        trimMessageHistory msgs config now =
          processMessages (trimArgsOf msgs config now) 0 msgs := by
      intro msgs
      simp [trimMessageHistory, hen]
    have hstable : trimArgsOf ((trimMessageHistory messages config now).1) config now =
        trimArgsOf messages config now := by
      have hlen := processMessages_length (trimArgsOf messages config now) messages 0
      have hops := buildFileOps_processMessages (trimArgsOf messages config now) messages 0
      rw [e1 messages]
      unfold trimArgsOf at hlen hops ⊢
      rw [hlen, hops]
    have hthr : (trimArgsOf messages config now).threshold ≤ 60 :=
      trimThreshold_le_60 config.mode
    have hnow2 : (trimArgsOf messages config now).now ≠ 0 := hnow
    refine ⟨?_, ?_, ?_⟩
    · rw [e1 ((trimMessageHistory messages config now).1), hstable, e1 messages]
      exact (processMessages_pass2_stats (trimArgsOf messages config now) hthr hnow2 0
        messages).1
    · rw [e1 ((trimMessageHistory messages config now).1), hstable, e1 messages]
      exact (processMessages_pass2_stats (trimArgsOf messages config now) hthr hnow2 0
        messages).2
    · intro i j tn cid st hget
      rw [e1 messages] at hget
      rw [e1 ((trimMessageHistory messages config now).1), hstable, e1 messages]
      exact processMessages_pass2_get (trimArgsOf messages config now) hthr hnow2 0
        messages i j tn cid st hget
  · have hE : config.enabled = false := by
      revert hen
      cases config.enabled <;> simp
    refine ⟨?_, ?_, ?_⟩
    · simp [trimMessageHistory, hE, TrimStats.zero]
    · simp [trimMessageHistory, hE, TrimStats.zero]
    · intro i j tn cid st hget
      simpa [trimMessageHistory, hE] using hget

/-- Transcript for the C5 witness: a trimmable superseded read outside the
tail plus a text part with a rules block. -/
def msgsC5w : List TransformMessage :=
  [⟨[MsgPart.tool "read" "c0" readState8, MsgPart.text "<carly-rules>r</carly-rules>"]⟩,
   ⟨[MsgPart.tool "read" "c1" readState9]⟩,
   emptyMsg, emptyMsg, emptyMsg]

theorem trim_second_pass_no_tool_mutation_witness :
    (7 : Int) ≠ 0 ∧
      (trimMessageHistory ((trimMessageHistory msgsC5w cfgC3w 7).1) cfgC3w 7).2.partsTrimmed
        = 0 :=
  ⟨by decide, (trim_second_pass_no_tool_mutation msgsC5w cfgC3w 7 (by decide)).1⟩

/-!  ### Session ledger — `src/unnamed/part_008`

`loadCumulativeStats`/`updateCumulativeStats` perform file I/O; the backing
store is modelled as the typed content of `stats.json` (absent file =
`none`; a file that fails to read or to schema-parse degrades to the same
defaults and is modelled as absent) together with the list of readable
session files (`id`, `started`, `promptCount`, `tokenStats`); a session
file that fails to read or lacks `id`/`tokenStats` is simply not in the
list, except that the source's JS truthiness check on `id` (empty string is
falsy) is kept explicit.  `saveCumulativeStats` writes the result back as
the new `stats.json`. -/

/-- The per-session token counters (`TokenStatsSchema`). -/
structure LedgerTokenStats where
  tokensSkippedBySelection : Nat
  tokensInjected : Nat
  tokensTrimmedFromHistory : Nat
  tokensTrimmedCarlyBlocks : Nat
  promptsProcessed : Nat
  rulesInjected : Nat
  baselineTokensPerPrompt : Nat
deriving DecidableEq

/-- The pre-aggregated totals block of `stats.json`. -/
structure CumulativeTotals where
  tokensSkippedBySelection : Nat
  tokensInjected : Nat
  tokensTrimmedFromHistory : Nat
  tokensTrimmedCarlyBlocks : Nat
  totalTokensSaved : Nat
deriving DecidableEq

/-- One per-session snapshot in `stats.json` (the four fields
`updateCumulativeStats` writes; the schema's extra defaulted fields are
never read by this code). -/
structure SessionSummary where
  sessionId : String
  date : String
  tokensSaved : Nat
  promptsProcessed : Nat
deriving DecidableEq

/-- The `stats.json` content (`CumulativeStatsSchema`). -/
structure CumulativeStats where
  version : Nat
  cumulative : CumulativeTotals
  sessions : List SessionSummary
deriving DecidableEq

/-- The fields read out of one session file (`SessionFileData`). -/
structure SessionFileData where
  id : String
  started : String
  promptCount : Nat
  tokenStats : LedgerTokenStats
deriving DecidableEq

/-- The `SessionConfig` fields consumed by `updateCumulativeStats`. -/
structure SessionRec where
  id : String
  started : String
  tokenStats : LedgerTokenStats
deriving DecidableEq

/-- The durable state the ledger functions read and write. -/
structure StatsStore where
  statsFile : Option CumulativeStats
  sessionFiles : List SessionFileData
deriving DecidableEq

/-- The schema defaults (`CumulativeStatsSchema.parse({})`). -/
def defaultCumulativeStats : CumulativeStats :=
  { version := 1
    cumulative := ⟨0, 0, 0, 0, 0⟩
    sessions := [] }

/-- `calculateTokensSaved(tokenStats)`. -/
def calculateTokensSaved (ts : LedgerTokenStats) : Nat :=
  ts.tokensSkippedBySelection + ts.tokensTrimmedFromHistory + ts.tokensTrimmedCarlyBlocks

def sumTokensSaved (sessions : List SessionSummary) : Nat :=
  (sessions.map (fun s => s.tokensSaved)).sum

/-- `calculateCumulativeStats(sessions)`: the source's loop adds each
snapshot's `tokensSaved` into `tokensSkippedBySelection` and
`totalTokensSaved` and leaves the other three categories at zero; the loop
total is the list sum. -/
def calculateCumulativeStats (sessions : List SessionSummary) : CumulativeTotals :=
  { tokensSkippedBySelection := sumTokensSaved sessions
    tokensInjected := 0
    tokensTrimmedFromHistory := 0
    tokensTrimmedCarlyBlocks := 0
    totalTokensSaved := sumTokensSaved sessions }

/-- Keyed insertion: replace the first snapshot with this session id, else
append.  This is both the insertion-ordered `Map.set` used while merging in
`loadCumulativeStats` and the `findIndex`-replace-else-push of
`updateCumulativeStats` (the two coincide because the merged list never
holds two snapshots with the same id). -/
def setFirstOrPush : List SessionSummary → SessionSummary → List SessionSummary
  | [], s => [s]
  | t :: ts, s =>
    if t.sessionId = s.sessionId then s :: ts else t :: setFirstOrPush ts s

/-- Merge the readable session files into the snapshot map: a file with a
truthy id not already present is appended as a fresh snapshot. -/
def mergeSessionFiles (acc : List SessionSummary) :
    List SessionFileData → List SessionSummary
  | [] => acc
  | f :: fs =>
    if (f.id != "") && !(acc.any (fun s => s.sessionId == f.id)) then
      mergeSessionFiles
        (acc ++ [⟨f.id, f.started, calculateTokensSaved f.tokenStats, f.promptCount⟩]) fs
    else mergeSessionFiles acc fs

/-- `loadCumulativeStats(configPath)`: take `stats.json` (or defaults),
key its snapshots by session id, merge the session files, and recompute the
cumulative block from the merged snapshots. -/
def loadCumulativeStats (store : StatsStore) : CumulativeStats :=
  let statsJson := store.statsFile.getD defaultCumulativeStats
  let fromStats := statsJson.sessions.foldl setFirstOrPush []
  let sessions := mergeSessionFiles fromStats store.sessionFiles
  { version := statsJson.version
    cumulative := calculateCumulativeStats sessions
    sessions := sessions }

/-- `updateCumulativeStats(configPath, session)`: load, add the current
session's stats onto the loaded cumulative block, recompute
`totalTokensSaved` as the sum of the three savings categories, replace or
append the session's snapshot, and save.  Returns the new stats and the
store as left on disk. -/
def updateCumulativeStats (store : StatsStore) (session : SessionRec) :
    CumulativeStats × StatsStore :=
  let stats := loadCumulativeStats store
  let ts := session.tokenStats
  let skipped := stats.cumulative.tokensSkippedBySelection + ts.tokensSkippedBySelection
  let hist := stats.cumulative.tokensTrimmedFromHistory + ts.tokensTrimmedFromHistory
  let carly := stats.cumulative.tokensTrimmedCarlyBlocks + ts.tokensTrimmedCarlyBlocks
  let cumulative : CumulativeTotals :=
    { tokensSkippedBySelection := skipped
      tokensInjected := stats.cumulative.tokensInjected + ts.tokensInjected
      tokensTrimmedFromHistory := hist
      tokensTrimmedCarlyBlocks := carly
      totalTokensSaved := skipped + hist + carly }
  let sessionSummary : SessionSummary :=
    ⟨session.id, session.started, calculateTokensSaved ts, ts.promptsProcessed⟩
  let result : CumulativeStats :=
    { version := stats.version
      cumulative := cumulative
      sessions := setFirstOrPush stats.sessions sessionSummary }
  (result, { statsFile := some result, sessionFiles := store.sessionFiles })

/-!  ### Ledger lemmas  -/

/-- No two snapshots share a session id (the `Map`-keyed merge guarantees
this for every list the ledger produces). -/
def NodupIds (l : List SessionSummary) : Prop :=
  l.Pairwise (fun a b => a.sessionId ≠ b.sessionId)

/-- Some snapshot in the list carries this session id. -/
def HasId (l : List SessionSummary) (x : String) : Prop :=
  ∃ u ∈ l, u.sessionId = x

theorem anyId_iff (l : List SessionSummary) (x : String) :
    (l.any (fun s => s.sessionId == x) = true) ↔ HasId l x := by
  simp [HasId, List.any_eq_true]

theorem setFirstOrPush_append (l : List SessionSummary) (s : SessionSummary)
    (h : ∀ t ∈ l, t.sessionId ≠ s.sessionId) :
    setFirstOrPush l s = l ++ [s] := by
  induction l with
  | nil => rfl
  | cons t ts ih =>
    rw [setFirstOrPush, if_neg (h t (List.mem_cons_self t ts)),
      ih (fun u hu => h u (List.mem_cons_of_mem t hu))]
    rfl

theorem setFirstOrPush_mem (l : List SessionSummary) (s u : SessionSummary)
    (hu : u ∈ setFirstOrPush l s) : u ∈ l ∨ u = s := by
  induction l with
  | nil =>
    simp [setFirstOrPush] at hu
    exact Or.inr hu
  | cons t ts ih =>
    by_cases h : t.sessionId = s.sessionId
    · rw [setFirstOrPush, if_pos h] at hu
      rcases List.mem_cons.mp hu with h1 | h1
      · exact Or.inr h1
      · exact Or.inl (List.mem_cons_of_mem t h1)
    · rw [setFirstOrPush, if_neg h] at hu
      rcases List.mem_cons.mp hu with h1 | h1
      · exact Or.inl (h1 ▸ List.mem_cons_self t ts)
      · rcases ih h1 with h2 | h2
        · exact Or.inl (List.mem_cons_of_mem t h2)
        · exact Or.inr h2

theorem setFirstOrPush_self_mem (l : List SessionSummary) (s : SessionSummary) :
    s ∈ setFirstOrPush l s := by
  induction l with
  | nil => exact List.mem_cons_self s []
  | cons t ts ih =>
    by_cases h : t.sessionId = s.sessionId
    · rw [setFirstOrPush, if_pos h]
      exact List.mem_cons_self s ts
    · rw [setFirstOrPush, if_neg h]
      exact List.mem_cons_of_mem t ih

theorem setFirstOrPush_keeps (l : List SessionSummary) (s : SessionSummary) (x : String)
    (hx : HasId l x) : HasId (setFirstOrPush l s) x := by
  induction l with
  | nil => exact absurd hx (by simp [HasId])
  | cons t ts ih =>
    obtain ⟨u, hu, hux⟩ := hx
    by_cases h : t.sessionId = s.sessionId
    · rw [setFirstOrPush, if_pos h]
      rcases List.mem_cons.mp hu with h1 | h1
      · exact ⟨s, List.mem_cons_self s ts, by rw [← h, ← h1]; exact hux⟩
      · exact ⟨u, List.mem_cons_of_mem s h1, hux⟩
    · rw [setFirstOrPush, if_neg h]
      rcases List.mem_cons.mp hu with h1 | h1
      · exact ⟨t, List.mem_cons_self t _, by rw [← h1]; exact hux⟩
      · obtain ⟨v, hv, hvx⟩ := ih ⟨u, h1, hux⟩
        exact ⟨v, List.mem_cons_of_mem t hv, hvx⟩

theorem setFirstOrPush_nodup (l : List SessionSummary) (s : SessionSummary)
    (h : NodupIds l) : NodupIds (setFirstOrPush l s) := by
  induction l with
  | nil => simp [setFirstOrPush, NodupIds]
  | cons t ts ih =>
    rw [NodupIds, List.pairwise_cons] at h
    by_cases hts : t.sessionId = s.sessionId
    · rw [setFirstOrPush, if_pos hts, NodupIds, List.pairwise_cons]
      exact ⟨fun u hu => hts ▸ h.1 u hu, h.2⟩
    · rw [setFirstOrPush, if_neg hts, NodupIds, List.pairwise_cons]
      refine ⟨fun u hu => ?_, ih h.2⟩
      rcases setFirstOrPush_mem ts s u hu with h1 | h1
      · exact h.1 u h1
      · rw [h1]
        exact hts

theorem setFirstOrPush_idem (l : List SessionSummary) (s : SessionSummary) :
    setFirstOrPush (setFirstOrPush l s) s = setFirstOrPush l s := by
  induction l with
  | nil => simp [setFirstOrPush]
  | cons t ts ih =>
    by_cases h : t.sessionId = s.sessionId
    · rw [setFirstOrPush, if_pos h, setFirstOrPush, if_pos rfl]
    · rw [setFirstOrPush, if_neg h, setFirstOrPush, if_neg h, ih]

theorem foldl_setFirstOrPush_id (l acc : List SessionSummary)
    (h : NodupIds (acc ++ l)) : l.foldl setFirstOrPush acc = acc ++ l := by
  induction l generalizing acc with
  | nil => simp
  | cons s l2 ih =>
    have hsplit := (List.pairwise_append.mp h)
    have hacc : ∀ t ∈ acc, t.sessionId ≠ s.sessionId :=
      fun t ht => hsplit.2.2 t ht s (List.mem_cons_self s l2)
    rw [List.foldl_cons, setFirstOrPush_append acc s hacc]
    have h2 : NodupIds ((acc ++ [s]) ++ l2) := by
      rw [List.append_assoc, List.singleton_append]
      exact h
    rw [ih (acc ++ [s]) h2, List.append_assoc, List.singleton_append]

theorem foldl_setFirstOrPush_nodup (l acc : List SessionSummary)
    (h : NodupIds acc) : NodupIds (l.foldl setFirstOrPush acc) := by
  induction l generalizing acc with
  | nil => exact h
  | cons s l2 ih => exact ih (setFirstOrPush acc s) (setFirstOrPush_nodup acc s h)

theorem mergeSessionFiles_keeps (fs : List SessionFileData)
    (acc : List SessionSummary) (x : String) (hx : HasId acc x) :
    HasId (mergeSessionFiles acc fs) x := by
  induction fs generalizing acc with
  | nil => exact hx
  | cons f fs2 ih =>
    rw [mergeSessionFiles]
    split
    · refine ih _ ?_
      obtain ⟨u, hu, hux⟩ := hx
      exact ⟨u, List.mem_append_left _ hu, hux⟩
    · exact ih acc hx

theorem mergeSessionFiles_covers :
    ∀ (fs : List SessionFileData) (acc : List SessionSummary) (f : SessionFileData),
      f ∈ fs → f.id ≠ "" → HasId (mergeSessionFiles acc fs) f.id := by
  intro fs
  induction fs with
  | nil =>
    intro acc f hf hid
    cases hf
  | cons f0 fs2 ih =>
    intro acc f hf hid
    rw [mergeSessionFiles]
    rcases List.mem_cons.mp hf with h1 | h1
    · subst h1
      split
      · refine mergeSessionFiles_keeps fs2 _ f.id ?_
        exact ⟨⟨f.id, f.started, calculateTokensSaved f.tokenStats, f.promptCount⟩,
          List.mem_append_right _ (List.mem_cons_self _ []), rfl⟩
      · rename_i hguard
        have hfid : (f.id != "") = true := by simpa using hid
        have hany : acc.any (fun s => s.sessionId == f.id) = true := by
          by_contra hno
          have hfalse : (acc.any (fun s => s.sessionId == f.id)) = false := by
            revert hno
            cases acc.any (fun s => s.sessionId == f.id) <;> simp
          exact hguard (by rw [hfid, hfalse]; rfl)
        exact mergeSessionFiles_keeps fs2 acc f.id ((anyId_iff acc f.id).mp hany)
    · split
      · exact ih _ f h1 hid
      · exact ih acc f h1 hid

theorem mergeSessionFiles_nodup (fs : List SessionFileData)
    (acc : List SessionSummary) (h : NodupIds acc) :
    NodupIds (mergeSessionFiles acc fs) := by
  induction fs generalizing acc with
  | nil => exact h
  | cons f fs2 ih =>
    rw [mergeSessionFiles]
    split
    · rename_i hguard
      refine ih _ ?_
      have hnotin : ¬ HasId acc f.id := by
        intro hin
        have := (anyId_iff acc f.id).mpr hin
        rw [Bool.and_eq_true] at hguard
        rw [this] at hguard
        simp at hguard
      rw [NodupIds, List.pairwise_append]
      refine ⟨h, List.pairwise_singleton _ _, ?_⟩
      intro a ha b hb
      rw [List.mem_singleton.mp hb]
      intro he
      exact hnotin ⟨a, ha, he⟩
    · exact ih acc h

theorem mergeSessionFiles_id (fs : List SessionFileData) (acc : List SessionSummary)
    (h : ∀ f ∈ fs, f.id ≠ "" → HasId acc f.id) :
    mergeSessionFiles acc fs = acc := by
  induction fs with
  | nil => rfl
  | cons f fs2 ih =>
    rw [mergeSessionFiles]
    have hguard : ((f.id != "") && !(acc.any (fun s => s.sessionId == f.id))) = false := by
      by_cases hid : f.id = ""
      · simp [hid]
      · have hany := (anyId_iff acc f.id).mpr (h f (List.mem_cons_self f fs2) hid)
        rw [hany]
        simp
    rw [if_neg (by rw [hguard]; exact Bool.false_ne_true)]
    exact ih (fun g hg => h g (List.mem_cons_of_mem f hg))

theorem loadCumulativeStats_nodup (store : StatsStore) :
    NodupIds (loadCumulativeStats store).sessions := by
  unfold loadCumulativeStats
  exact mergeSessionFiles_nodup store.sessionFiles _
    (foldl_setFirstOrPush_nodup _ [] (List.Pairwise.nil))

theorem loadCumulativeStats_covers (store : StatsStore) :
    ∀ f ∈ store.sessionFiles, f.id ≠ "" →
      HasId (loadCumulativeStats store).sessions f.id := by
  intro f hf hid
  unfold loadCumulativeStats
  exact mergeSessionFiles_covers store.sessionFiles _ f hf hid

/-- Loading a store whose `stats.json` was just saved, and whose session
files are all already represented among the saved snapshots, reproduces the
saved snapshot list with the cumulative block recomputed from it. -/
theorem loadCumulativeStats_of_saved (r : CumulativeStats) (files : List SessionFileData)
    (h1 : NodupIds r.sessions)
    (h2 : ∀ f ∈ files, f.id ≠ "" → HasId r.sessions f.id) :
    loadCumulativeStats ⟨some r, files⟩ =
      { version := r.version
        cumulative := calculateCumulativeStats r.sessions
        sessions := r.sessions } := by
  unfold loadCumulativeStats
  have hfold : r.sessions.foldl setFirstOrPush [] = r.sessions := by
    have := foldl_setFirstOrPush_id r.sessions [] (by rw [List.nil_append]; exact h1)
    rwa [List.nil_append] at this
  simp only [Option.getD_some]
  rw [hfold, mergeSessionFiles_id files r.sessions h2]

/-- The snapshot `updateCumulativeStats` writes for the session. -/
def summaryOf (sess : SessionRec) : SessionSummary :=
  ⟨sess.id, sess.started, calculateTokensSaved sess.tokenStats,
   sess.tokenStats.promptsProcessed⟩

/-- The cumulative block after `updateCumulativeStats` adds one session's
stats onto a base block. -/
def addSessionTotals (c : CumulativeTotals) (ts : LedgerTokenStats) : CumulativeTotals :=
  { tokensSkippedBySelection := c.tokensSkippedBySelection + ts.tokensSkippedBySelection
    tokensInjected := c.tokensInjected + ts.tokensInjected
    tokensTrimmedFromHistory := c.tokensTrimmedFromHistory + ts.tokensTrimmedFromHistory
    tokensTrimmedCarlyBlocks := c.tokensTrimmedCarlyBlocks + ts.tokensTrimmedCarlyBlocks
    totalTokensSaved :=
      (c.tokensSkippedBySelection + ts.tokensSkippedBySelection) +
        (c.tokensTrimmedFromHistory + ts.tokensTrimmedFromHistory) +
        (c.tokensTrimmedCarlyBlocks + ts.tokensTrimmedCarlyBlocks) }

theorem updateCumulativeStats_eq (store : StatsStore) (sess : SessionRec) :
    updateCumulativeStats store sess =
      ({ version := (loadCumulativeStats store).version
         cumulative := addSessionTotals (loadCumulativeStats store).cumulative sess.tokenStats
         sessions := setFirstOrPush (loadCumulativeStats store).sessions (summaryOf sess) },
       { statsFile := some
           { version := (loadCumulativeStats store).version
             cumulative := addSessionTotals (loadCumulativeStats store).cumulative sess.tokenStats
             sessions := setFirstOrPush (loadCumulativeStats store).sessions (summaryOf sess) }
         sessionFiles := store.sessionFiles }) := rfl

/-!  ### Claim C1  -/

/-- Session used in the C1 counterexample: 10 tokens saved in each of the
three savings categories (30 in total). -/
def sessC1 : SessionRec :=
  ⟨"s1", "2024-01-01", ⟨10, 0, 10, 10, 2, 0, 0⟩⟩

/-- Empty ledger store for the C1 counterexample. -/
def storeC1 : StatsStore := ⟨none, []⟩

/-- C1 counterexample: updating an empty ledger with a 30-token session
yields totals 30 (matching the snapshot sum), but repeating the update for
the same unchanged session on the saved store yields totals 60 while the
stored snapshots still sum to 30 — the cumulative block is incremented on
top of the recomputed base, so the totals neither stay put under repetition
nor equal the field-wise sum over the stored snapshots. -/
theorem updateCumulativeStats_drifts :
    (updateCumulativeStats storeC1 sessC1).1.cumulative.totalTokensSaved = 30 ∧
      sumTokensSaved (updateCumulativeStats storeC1 sessC1).1.sessions = 30 ∧
      (updateCumulativeStats ((updateCumulativeStats storeC1 sessC1).2)
          sessC1).1.cumulative.totalTokensSaved = 60 ∧
      sumTokensSaved (updateCumulativeStats ((updateCumulativeStats storeC1 sessC1).2)
          sessC1).1.sessions = 30 ∧
      (60 : Nat) ≠ 30 := by
  decide

/-- C1 (amended): `loadCumulativeStats` does recompute the cumulative block
as the sum over all known snapshots (all of it credited to the selection
category); `updateCumulativeStats` then adds the current session's stats
once on top of that recomputed base, so its totals equal the pre-update
snapshot sum plus the session's current savings — exceeding the stored
snapshot sum rather than equalling it — and replaces/appends the session's
snapshot; from the second consecutive update with the same unchanged
session on, the result is stable: the recompute-at-load discards the
incremented totals, so repeated updates no longer change anything. -/
theorem updateCumulativeStats_recompute_plus_once (store : StatsStore) (sess : SessionRec) :
    ((loadCumulativeStats store).cumulative =
        calculateCumulativeStats (loadCumulativeStats store).sessions) ∧
    ((updateCumulativeStats store sess).1.cumulative.totalTokensSaved =
        sumTokensSaved (loadCumulativeStats store).sessions +
          calculateTokensSaved sess.tokenStats) ∧
    ((updateCumulativeStats store sess).1.sessions =
        setFirstOrPush (loadCumulativeStats store).sessions (summaryOf sess)) ∧
    (updateCumulativeStats
        ((updateCumulativeStats ((updateCumulativeStats store sess).2) sess).2) sess =
      updateCumulativeStats ((updateCumulativeStats store sess).2) sess) := by
  refine ⟨rfl, ?_, rfl, ?_⟩
  · have h2 : (updateCumulativeStats store sess).1.cumulative.totalTokensSaved =
        (sumTokensSaved (loadCumulativeStats store).sessions +
            sess.tokenStats.tokensSkippedBySelection) +
          (0 + sess.tokenStats.tokensTrimmedFromHistory) +
          (0 + sess.tokenStats.tokensTrimmedCarlyBlocks) := rfl
    rw [h2]
    unfold calculateTokensSaved
    omega
  · have e1 : (updateCumulativeStats store sess).2 =
        ⟨some (updateCumulativeStats store sess).1, store.sessionFiles⟩ := rfl
    have filesAny : ∀ X : StatsStore,
        (updateCumulativeStats X sess).2.sessionFiles = X.sessionFiles := fun X => rfl
    have r1sess : (updateCumulativeStats store sess).1.sessions =
        setFirstOrPush (loadCumulativeStats store).sessions (summaryOf sess) := rfl
    have r1nodup : NodupIds (updateCumulativeStats store sess).1.sessions := by
      rw [r1sess]
      exact setFirstOrPush_nodup _ _ (loadCumulativeStats_nodup store)
    have r1covers : ∀ f ∈ store.sessionFiles, f.id ≠ "" →
        HasId (updateCumulativeStats store sess).1.sessions f.id := by
      intro f hf hid
      rw [r1sess]
      exact setFirstOrPush_keeps _ _ _ (loadCumulativeStats_covers store f hf hid)
    have load1 : loadCumulativeStats ((updateCumulativeStats store sess).2) =
        { version := (updateCumulativeStats store sess).1.version
          cumulative := calculateCumulativeStats (updateCumulativeStats store sess).1.sessions
          sessions := (updateCumulativeStats store sess).1.sessions } := by
      rw [e1]
      exact loadCumulativeStats_of_saved _ store.sessionFiles r1nodup r1covers
    have hsetidem :
        setFirstOrPush (updateCumulativeStats store sess).1.sessions (summaryOf sess) =
          (updateCumulativeStats store sess).1.sessions := by
      rw [r1sess]
      exact setFirstOrPush_idem _ _
    have r2eq := updateCumulativeStats_eq ((updateCumulativeStats store sess).2) sess
    rw [load1] at r2eq
    dsimp only at r2eq
    rw [hsetidem, filesAny store] at r2eq
    have r2sess :
        (updateCumulativeStats ((updateCumulativeStats store sess).2) sess).1.sessions =
          (updateCumulativeStats store sess).1.sessions := by
      rw [r2eq]
    have r2ver :
        (updateCumulativeStats ((updateCumulativeStats store sess).2) sess).1.version =
          (updateCumulativeStats store sess).1.version := by
      rw [r2eq]
    have e2 : (updateCumulativeStats ((updateCumulativeStats store sess).2) sess).2 =
        ⟨some (updateCumulativeStats ((updateCumulativeStats store sess).2) sess).1,
          ((updateCumulativeStats store sess).2).sessionFiles⟩ := rfl
    have r2nodup : NodupIds
        (updateCumulativeStats ((updateCumulativeStats store sess).2) sess).1.sessions := by
      rw [r2sess]
      exact r1nodup
    have r2covers : ∀ f ∈ ((updateCumulativeStats store sess).2).sessionFiles, f.id ≠ "" →
        HasId (updateCumulativeStats ((updateCumulativeStats store sess).2) sess).1.sessions
          f.id := by
      rw [filesAny store, r2sess]
      exact r1covers
    have load2 : loadCumulativeStats
        ((updateCumulativeStats ((updateCumulativeStats store sess).2) sess).2) =
        { version :=
            (updateCumulativeStats ((updateCumulativeStats store sess).2) sess).1.version
          cumulative := calculateCumulativeStats
            (updateCumulativeStats ((updateCumulativeStats store sess).2) sess).1.sessions
          sessions :=
            (updateCumulativeStats ((updateCumulativeStats store sess).2) sess).1.sessions } := by
      rw [e2]
      exact loadCumulativeStats_of_saved _ _ r2nodup r2covers
    have r3eq := updateCumulativeStats_eq
      ((updateCumulativeStats ((updateCumulativeStats store sess).2) sess).2) sess
    rw [load2] at r3eq
    dsimp only at r3eq
    rw [r2ver, r2sess, hsetidem,
      filesAny ((updateCumulativeStats store sess).2), filesAny store] at r3eq
    rw [r3eq, r2eq]

/-!  ### Loader — `src/src/engine/loader.ts` and the injected-token estimate
of `src/src/index.ts`

`parseDomainFile` reads and parses a rule document from disk; it is
modelled by the environment `env : String → List String` (file path ↦
parsed rule lines, `[]` for a missing document).  `path.join(configPath,
file)` is modelled for the plain relative operands the engine uses. -/

/-- One star-command definition (`StarCommandSchema`; the optional
description is never read by the loader). -/
structure StarCommand where
  rules : List String
deriving DecidableEq

/-- The loaded configuration handed to the loader (`CarlyConfig`):
manifest, command map, context file and the configuration directory. -/
structure CarlyConfig where
  manifest : Manifest
  commands : List (String × StarCommand)
  context : ContextFile
  configPath : String

/-- JS object property lookup over the association-list model (keys are
unique in a JS object). -/
def lookupRec {α : Type} : List (String × α) → String → Option α
  | [], _ => none
  | (k, v) :: rest, key => if k = key then some v else lookupRec rest key

/-- `path.join(configPath, file)` for the plain relative operands used
here. -/
def pathJoin (a b : String) : String := a ++ "/" ++ b

/-- Total character length of a rule list (the `rule.length` accumulation
loops). -/
def charsOfRules (rules : List String) : Nat := (rules.map String.length).sum

/-- `calculateBaseline(config)`: character count of every active domain's
rules, every star-command's rules, and all three bracket rule sets
(`rules.join("").length`), divided by 4 rounded up. -/
def calculateBaseline (env : String → List String) (config : CarlyConfig) : Nat :=
  let domainChars := (config.manifest.domains.map (fun nd =>
    if nd.2.state = FeatState.inactive then 0
    else charsOfRules (env (pathJoin config.configPath nd.2.file)))).sum
  let commandChars := (config.commands.map (fun nc => charsOfRules nc.2.rules)).sum
  let bracketChars :=
    (String.join config.context.brackets.fresh.rules).length +
      (String.join config.context.brackets.moderate.rules).length +
      (String.join config.context.brackets.depleted.rules).length
  (domainChars + commandChars + bracketChars + 3) / 4

/-- The `LoadedRules` fields (the `injectionStats`/`tokenSavings` slots are
always `null` when `loadRules` returns and are populated only by the plugin
entry point; they are omitted here). -/
structure LoadedRules where
  alwaysOn : List (String × List String)
  matched : List (String × List String)
  commands : List (String × List String)
  bracketRules : List String
  bracket : BracketName
  promptCount : Nat
  bracketThreshold : Nat
  matchedKeywords : List (String × List String)
  excludedDomains : List (String × List String)
  globalExcluded : List String
  devmode : Bool
  contextEnabled : Bool
  commandsEnabled : Bool
  availableDomains : List (String × List String)
deriving DecidableEq

/-- The domain-rule loading loops of `loadRules` (shared by the always-on
and keyword-matched passes): look each name up in the manifest, read its
document, and keep non-empty rule lists. -/
def loadDomainEntries (env : String → List String) (configPath : String)
    (domains : List (String × DomainConfig)) : List String → List (String × List String)
  | [] => []
  | name :: rest =>
    match lookupRec domains name with
    | some domain =>
      let rules := env (pathJoin configPath domain.file)
      if rules ≠ [] then (name, rules) :: loadDomainEntries env configPath domains rest
      else loadDomainEntries env configPath domains rest
    | none => loadDomainEntries env configPath domains rest

/-- The star-command loading loop of `loadRules`. -/
def loadCommandEntries (commands : List (String × StarCommand)) :
    List String → List (String × List String)
  | [] => []
  | c :: rest =>
    match lookupRec commands c with
    | some cmd =>
      if cmd.rules ≠ [] then (c, cmd.rules) :: loadCommandEntries commands rest
      else loadCommandEntries commands rest
    | none => loadCommandEntries commands rest

/-- The available-but-not-loaded summary pass of `loadRules`. -/
def availableDomainsOf (matchResult : MatchResult)
    (domains : List (String × DomainConfig)) : List (String × List String) :=
  domains.filterMap (fun nd =>
    if nd.2.state = FeatState.inactive then none
    else if nd.2.alwaysOn then none
    else if (lookupRec matchResult.matched nd.1).isSome then none
    else if (lookupRec matchResult.excluded nd.1).isSome then none
    else if nd.2.recallKws ≠ [] then some (nd.1, nd.2.recallKws) else none)

/-- `loadRules(matchResult, config, bracket, promptCount)`. -/
def loadRules (env : String → List String) (matchResult : MatchResult)
    (config : CarlyConfig) (bracket : BracketResult) (promptCount : Nat) : LoadedRules :=
  { alwaysOn := loadDomainEntries env config.configPath config.manifest.domains
      matchResult.alwaysOn
    matched := loadDomainEntries env config.configPath config.manifest.domains
      (matchResult.matched.map (fun e => e.1))
    commands :=
      if config.manifest.commandsState = FeatState.active ∧ matchResult.starCommands ≠ []
      then loadCommandEntries config.commands matchResult.starCommands
      else []
    bracketRules :=
      if config.manifest.contextState = FeatState.active then bracket.rules else []
    bracket := bracket.name
    promptCount := promptCount
    bracketThreshold := bracket.threshold
    matchedKeywords := matchResult.matched
    excludedDomains := matchResult.excluded
    globalExcluded := matchResult.globalExcluded
    devmode := config.manifest.devmode
    contextEnabled := config.manifest.contextState = FeatState.active
    commandsEnabled := config.manifest.commandsState = FeatState.active
    availableDomains := availableDomainsOf matchResult config.manifest.domains }

/-- `estimateRuleTokens(rules)` of `src/src/index.ts`: per-category
character total divided by 4, rounded up. -/
def estimateRuleTokens (rules : List (String × List String)) : Nat :=
  (((rules.map (fun e => charsOfRules e.2)).sum) + 3) / 4

/-- `tokensInjectedThisPrompt` of `src/src/index.ts`: the engine's own
estimate of the tokens injected for one turn's loaded bundle — the sum of
the four per-category estimates, each rounded up separately. -/
def tokensInjectedThisPrompt (loaded : LoadedRules) : Nat :=
  estimateRuleTokens loaded.alwaysOn + estimateRuleTokens loaded.matched +
    estimateRuleTokens loaded.commands + estimateTokens (String.join loaded.bracketRules)

/-- Total character count of one turn's loaded bundle (always-on rules,
matched rules, command rules, bracket rules). -/
def bundleChars (loaded : LoadedRules) : Nat :=
  (loaded.alwaysOn.map (fun e => charsOfRules e.2)).sum +
    (loaded.matched.map (fun e => charsOfRules e.2)).sum +
    (loaded.commands.map (fun e => charsOfRules e.2)).sum +
    (String.join loaded.bracketRules).length

/-!  ### Claim C9  -/

/-- Rule documents for the C9 counterexample: one one-character rule. -/
def envC9 : String → List String := fun p => if p = "cp/a.md" then ["x"] else []

def domA : DomainConfig :=
  { state := FeatState.active, alwaysOn := true, recallKws := []
    exclude := [], paths := [], file := "a.md" }

def mfstC9 : Manifest :=
  { devmode := false
    globalExclude := []
    domains := [("a", domA)]
    commandsState := FeatState.active
    contextState := FeatState.active }

def ctxC9 : ContextFile :=
  { thresholds := ⟨15, 35, 50⟩
    brackets := ⟨⟨true, ["z"]⟩, ⟨true, []⟩, ⟨true, []⟩⟩ }

def cfgC9 : CarlyConfig :=
  { manifest := mfstC9
    commands := [("c", ⟨["y"]⟩)]
    context := ctxC9
    configPath := "cp" }

def loadedC9 : LoadedRules :=
  loadRules envC9 (matchDomains "*c" mfstC9) cfgC9 (getBracket 0 ctxC9) 0

/-- C9 counterexample: with one-character rules in three categories the
engine's injected-token estimate (per-category ceilings summed:
1 + 0 + 1 + 1 = 3) exceeds `calculateBaseline` (one global ceiling over 3
characters: 1), so the baseline is NOT ≥ the estimated token size of the
turn's actual bundle. -/
theorem baseline_below_injected_estimate :
    calculateBaseline envC9 cfgC9 = 1 ∧
      tokensInjectedThisPrompt loadedC9 = 3 ∧
      calculateBaseline envC9 cfgC9 < tokensInjectedThisPrompt loadedC9 := by
  decide

/-- The character total `calculateBaseline` accumulates before dividing. -/
def baselineChars (env : String → List String) (config : CarlyConfig) : Nat :=
  (config.manifest.domains.map (fun nd =>
      if nd.2.state = FeatState.inactive then 0
      else charsOfRules (env (pathJoin config.configPath nd.2.file)))).sum +
    (config.commands.map (fun nc => charsOfRules nc.2.rules)).sum +
    ((String.join config.context.brackets.fresh.rules).length +
      (String.join config.context.brackets.moderate.rules).length +
      (String.join config.context.brackets.depleted.rules).length)

theorem calculateBaseline_eq (env : String → List String) (config : CarlyConfig) :
    calculateBaseline env config = (baselineChars env config + 3) / 4 := rfl

/-!  Support lemmas for the amended C9.  -/

theorem lookupRec_of_mem_nodup {α : Type} (l : List (String × α)) (k : String) (v : α)
    (hnd : (l.map Prod.fst).Nodup) (hm : (k, v) ∈ l) : lookupRec l k = some v := by
  induction l with
  | nil => cases hm
  | cons hd tl ih =>
    obtain ⟨k0, v0⟩ := hd
    rw [List.map_cons, List.nodup_cons] at hnd
    rcases List.mem_cons.mp hm with h1 | h1
    · injection h1 with e1 e2
      rw [lookupRec, if_pos e1.symm]
      rw [e2]
    · have hk : k0 ≠ k := by
        intro he
        exact hnd.1 (he ▸ (List.mem_map.mpr ⟨(k, v), h1, rfl⟩))
      rw [lookupRec, if_neg hk]
      exact ih hnd.2 h1

theorem mem_keys_of_lookupRec {α : Type} (l : List (String × α)) (k : String) (v : α)
    (h : lookupRec l k = some v) : k ∈ l.map Prod.fst := by
  induction l with
  | nil => cases h
  | cons hd tl ih =>
    obtain ⟨k0, v0⟩ := hd
    rw [lookupRec] at h
    by_cases he : k0 = k
    · rw [List.map_cons]
      exact he ▸ List.mem_cons_self _ _
    · rw [if_neg he] at h
      exact List.mem_cons_of_mem _ (ih h)

theorem sum_over_keys_le {α : Type} (l : List (String × α)) (names : List String)
    (g : String → Nat) (w : String × α → Nat)
    (hl : (l.map Prod.fst).Nodup) (hn : names.Nodup)
    (hmem : ∀ n ∈ names, n ∈ l.map Prod.fst)
    (hgw : ∀ p ∈ l, g p.1 ≤ w p) :
    (names.map g).sum ≤ (l.map w).sum := by
  have h1 : (names.map g).sum = ∑ x ∈ names.toFinset, g x :=
    (List.sum_toFinset g hn).symm
  have h2 : names.toFinset ⊆ (l.map Prod.fst).toFinset := by
    intro x hx
    rw [List.mem_toFinset] at hx ⊢
    exact hmem x hx
  have h3 : ∑ x ∈ names.toFinset, g x ≤ ∑ x ∈ (l.map Prod.fst).toFinset, g x :=
    Finset.sum_le_sum_of_subset h2
  have h4 : ∑ x ∈ (l.map Prod.fst).toFinset, g x = ((l.map Prod.fst).map g).sum :=
    List.sum_toFinset g hl
  have h5 : ((l.map Prod.fst).map g).sum = (l.map (fun p => g p.1)).sum := by
    rw [List.map_map]
    rfl
  have h6 : (l.map (fun p => g p.1)).sum ≤ (l.map w).sum :=
    List.sum_le_sum hgw
  omega

theorem dedupFirstAux_subset (fuel : Nat) (l : List String) :
    ∀ y ∈ dedupFirstAux fuel l, y ∈ l := by
  induction fuel generalizing l with
  | zero => intro y hy; simp [dedupFirstAux] at hy
  | succ fuel ih =>
    intro y hy
    cases l with
    | nil => simp [dedupFirstAux] at hy
    | cons x xs =>
      rw [dedupFirstAux] at hy
      rcases List.mem_cons.mp hy with h1 | h1
      · exact h1 ▸ List.mem_cons_self x xs
      · exact List.mem_cons_of_mem x (List.mem_filter.mp (ih _ y h1)).1

theorem dedupFirstAux_nodup (fuel : Nat) (l : List String) :
    (dedupFirstAux fuel l).Nodup := by
  induction fuel generalizing l with
  | zero => simp [dedupFirstAux]
  | succ fuel ih =>
    cases l with
    | nil => simp [dedupFirstAux]
    | cons x xs =>
      rw [dedupFirstAux, List.nodup_cons]
      refine ⟨?_, ih _⟩
      intro hx
      have := (List.mem_filter.mp (dedupFirstAux_subset fuel _ x hx)).2
      simp at this

theorem detectStarCommands_nodup (prompt : String) :
    (detectStarCommands prompt).Nodup := dedupFirstAux_nodup _ _

theorem loadDomainEntries_chars_le (env : String → List String) (cp : String)
    (domains : List (String × DomainConfig)) (names : List String)
    (hact : ∀ n ∈ names, ∀ d, lookupRec domains n = some d →
      d.state ≠ FeatState.inactive) :
    ((loadDomainEntries env cp domains names).map (fun e => charsOfRules e.2)).sum ≤
      (names.map (fun n => match lookupRec domains n with
        | some d =>
          if d.state = FeatState.inactive then 0
          else charsOfRules (env (pathJoin cp d.file))
        | none => 0)).sum := by
  induction names with
  | nil => exact Nat.le_refl 0
  | cons n rest ih =>
    have ih2 := ih (fun m hm d hd => hact m (List.mem_cons_of_mem n hm) d hd)
    rw [List.map_cons, List.sum_cons]
    cases hl : lookupRec domains n with
    | none =>
      simp only [loadDomainEntries, hl]
      omega
    | some d =>
      have hd := hact n (List.mem_cons_self n rest) d hl
      simp only [loadDomainEntries, hl]
      rw [if_neg hd]
      by_cases hr : env (pathJoin cp d.file) ≠ []
      · rw [if_pos hr]
        simp only [List.map_cons, List.sum_cons]
        omega
      · rw [if_neg hr]
        omega

theorem loadCommandEntries_chars_le (commands : List (String × StarCommand))
    (cs : List String) :
    ((loadCommandEntries commands cs).map (fun e => charsOfRules e.2)).sum ≤
      (cs.map (fun c => match lookupRec commands c with
        | some cmd => charsOfRules cmd.rules
        | none => 0)).sum := by
  induction cs with
  | nil => exact Nat.le_refl 0
  | cons c rest ih =>
    rw [List.map_cons, List.sum_cons]
    cases hl : lookupRec commands c with
    | none =>
      simp only [loadCommandEntries, hl]
      omega
    | some cmd =>
      simp only [loadCommandEntries, hl]
      by_cases hr : cmd.rules ≠ []
      · rw [if_pos hr]
        simp only [List.map_cons, List.sum_cons]
        omega
      · rw [if_neg hr]
        omega

theorem sum_eq_sum_filter_of_zero (l : List String) (p : String → Bool) (g : String → Nat)
    (hz : ∀ x ∈ l, p x = false → g x = 0) :
    (l.map g).sum = ((l.filter p).map g).sum := by
  induction l with
  | nil => rfl
  | cons x xs ih =>
    have ih2 := ih (fun y hy hp => hz y (List.mem_cons_of_mem x hy) hp)
    rw [List.map_cons, List.sum_cons]
    cases hp : p x with
    | true =>
      rw [List.filter_cons_of_pos hp, List.map_cons, List.sum_cons, ih2]
    | false =>
      rw [List.filter_cons_of_neg (by simp [hp]), hz x (List.mem_cons_self x xs) hp, ih2]
      omega

theorem bracket_join_le (promptCount : Nat) (ctx : ContextFile) :
    (String.join (getBracket promptCount ctx).rules).length ≤
      (String.join ctx.brackets.fresh.rules).length +
        (String.join ctx.brackets.moderate.rules).length +
        (String.join ctx.brackets.depleted.rules).length := by
  have h0 : (String.join ([] : List String)).length = 0 := rfl
  unfold getBracket
  split_ifs <;> dsimp only <;> omega

theorem matchDomains_starCommands (prompt : String) (m : Manifest) :
    (matchDomains prompt m).starCommands = detectStarCommands prompt := by
  by_cases h1 : m.globalExclude ≠ []
  · by_cases h2 : findMatchingKeywords prompt m.globalExclude ≠ []
    · simp [matchDomains, h1, h2]
    · simp [matchDomains, matchDomainsMain, h1, h2]
  · simp [matchDomains, matchDomainsMain, h1]

theorem matchDomains_cases (prompt : String) (m : Manifest) :
    matchDomains prompt m = matchDomainsMain prompt m ∨
      ((matchDomains prompt m).alwaysOn = [] ∧ (matchDomains prompt m).matched = []) := by
  by_cases h1 : m.globalExclude ≠ []
  · by_cases h2 : findMatchingKeywords prompt m.globalExclude ≠ []
    · right
      constructor <;> simp [matchDomains, h1, h2]
    · left
      simp [matchDomains, h1, h2]
  · left
    simp [matchDomains, h1]

theorem matchDomainsMain_alwaysOn (prompt : String) (m : Manifest) :
    (matchDomainsMain prompt m).alwaysOn =
      (m.domains.filter domainActiveAlwaysOn).map Prod.fst := by
  simp [matchDomainsMain, processDomains_eq]

theorem matchDomainsMain_matched (prompt : String) (m : Manifest) :
    (matchDomainsMain prompt m).matched =
      m.domains.filterMap (domainMatchedEntry prompt) := by
  simp [matchDomainsMain, processDomains_eq]

theorem domainMatchedEntry_some (prompt : String) (nd : String × DomainConfig)
    (x : String × List String) (h : domainMatchedEntry prompt nd = some x) :
    x.1 = nd.1 ∧ nd.2.state ≠ FeatState.inactive ∧ nd.2.alwaysOn = false := by
  unfold domainMatchedEntry at h
  by_cases h1 : nd.2.state = FeatState.inactive
  · rw [if_pos h1] at h
    cases h
  · rw [if_neg h1] at h
    by_cases h2 : nd.2.alwaysOn = true
    · rw [if_pos h2] at h
      cases h
    · rw [if_neg h2] at h
      by_cases h3 :
          (if nd.2.exclude ≠ [] then findMatchingKeywords prompt nd.2.exclude else []) ≠ []
      · rw [if_pos h3] at h
        cases h
      · rw [if_neg h3] at h
        by_cases h4 :
            (if nd.2.recallKws ≠ [] then findMatchingKeywords prompt nd.2.recallKws else []) ≠ []
        · rw [if_pos h4] at h
          injection h with he
          refine ⟨by rw [← he], h1, ?_⟩
          revert h2
          cases nd.2.alwaysOn <;> simp
        · rw [if_neg h4] at h
          cases h

theorem filterMap_matched_keys_sublist (prompt : String)
    (l : List (String × DomainConfig)) :
    ((l.filterMap (domainMatchedEntry prompt)).map Prod.fst).Sublist (l.map Prod.fst) := by
  induction l with
  | nil => exact List.Sublist.refl []
  | cons nd tl ih =>
    cases h : domainMatchedEntry prompt nd with
    | none =>
      rw [List.filterMap_cons_none h, List.map_cons]
      exact List.Sublist.cons nd.1 ih
    | some x =>
      rw [List.filterMap_cons_some h, List.map_cons, List.map_cons,
        (domainMatchedEntry_some prompt nd x h).1]
      exact ih.cons₂ nd.1

theorem alwaysOn_name_spec (prompt : String) (m : Manifest) (n : String)
    (hn : n ∈ (matchDomainsMain prompt m).alwaysOn) :
    ∃ d, (n, d) ∈ m.domains ∧ d.state ≠ FeatState.inactive ∧ d.alwaysOn = true := by
  rw [matchDomainsMain_alwaysOn] at hn
  obtain ⟨nd, hmem, hfst⟩ := List.mem_map.mp hn
  have hf := List.mem_filter.mp hmem
  have hP := hf.1
  have hQ := hf.2
  rw [domainActiveAlwaysOn, Bool.and_eq_true] at hQ
  subst hfst
  exact ⟨nd.2, hP, of_decide_eq_true hQ.1, hQ.2⟩

theorem matched_name_spec (prompt : String) (m : Manifest) (n : String)
    (hn : n ∈ (matchDomainsMain prompt m).matched.map Prod.fst) :
    ∃ d, (n, d) ∈ m.domains ∧ d.state ≠ FeatState.inactive ∧ d.alwaysOn = false := by
  rw [matchDomainsMain_matched] at hn
  obtain ⟨x, hxmem, hxfst⟩ := List.mem_map.mp hn
  obtain ⟨nd, hndmem, hnd⟩ := List.mem_filterMap.mp hxmem
  obtain ⟨he1, he2, he3⟩ := domainMatchedEntry_some prompt nd x hnd
  have : nd.1 = n := by rw [← he1, hxfst]
  subst this
  exact ⟨nd.2, hndmem, he2, he3⟩

theorem mem_values_unique {α : Type} (l : List (String × α))
    (hnd : (l.map Prod.fst).Nodup) (k : String) (v1 v2 : α)
    (h1 : (k, v1) ∈ l) (h2 : (k, v2) ∈ l) : v1 = v2 := by
  have e1 := lookupRec_of_mem_nodup l k v1 hnd h1
  have e2 := lookupRec_of_mem_nodup l k v2 hnd h2
  rw [e1] at e2
  injection e2

theorem alwaysOn_names_nodup (prompt : String) (m : Manifest)
    (hdom : (m.domains.map Prod.fst).Nodup) :
    (matchDomainsMain prompt m).alwaysOn.Nodup := by
  rw [matchDomainsMain_alwaysOn]
  exact (List.Sublist.map Prod.fst (List.filter_sublist m.domains)).nodup hdom

theorem matched_names_nodup (prompt : String) (m : Manifest)
    (hdom : (m.domains.map Prod.fst).Nodup) :
    ((matchDomainsMain prompt m).matched.map Prod.fst).Nodup := by
  rw [matchDomainsMain_matched]
  exact (filterMap_matched_keys_sublist prompt m.domains).nodup hdom

/-- Per-name contribution that `calculateBaseline` grants a domain name:
its gated rule-character count if the name resolves in the manifest, else
zero. -/
def domGate (env : String → List String) (cp : String)
    (domains : List (String × DomainConfig)) (n : String) : Nat :=
  match lookupRec domains n with
  | some d =>
    if d.state = FeatState.inactive then 0
    else charsOfRules (env (pathJoin cp d.file))
  | none => 0

/-- Per-name contribution that `calculateBaseline` grants a star-command:
its rule-character count if the name resolves in commands.json, else
zero. -/
def cmdGate (commands : List (String × StarCommand)) (c : String) : Nat :=
  match lookupRec commands c with
  | some cmd => charsOfRules cmd.rules
  | none => 0

theorem domGate_chars_le (env : String → List String) (cp : String)
    (domains : List (String × DomainConfig)) (names : List String)
    (hact : ∀ n ∈ names, ∀ d, lookupRec domains n = some d →
      d.state ≠ FeatState.inactive) :
    ((loadDomainEntries env cp domains names).map (fun e => charsOfRules e.2)).sum ≤
      (names.map (domGate env cp domains)).sum :=
  loadDomainEntries_chars_le env cp domains names hact

theorem cmdGate_chars_le (commands : List (String × StarCommand)) (cs : List String) :
    ((loadCommandEntries commands cs).map (fun e => charsOfRules e.2)).sum ≤
      (cs.map (cmdGate commands)).sum :=
  loadCommandEntries_chars_le commands cs

theorem domGate_le (env : String → List String) (cp : String)
    (domains : List (String × DomainConfig)) (p : String × DomainConfig)
    (hdom : (domains.map Prod.fst).Nodup) (hp : p ∈ domains) :
    domGate env cp domains p.1 ≤
      (if p.2.state = FeatState.inactive then 0
        else charsOfRules (env (pathJoin cp p.2.file))) := by
  unfold domGate
  rw [lookupRec_of_mem_nodup domains p.1 p.2 hdom hp]

theorem cmdGate_le (commands : List (String × StarCommand)) (p : String × StarCommand)
    (hcmd : (commands.map Prod.fst).Nodup) (hp : p ∈ commands) :
    cmdGate commands p.1 ≤ charsOfRules p.2.rules := by
  unfold cmdGate
  rw [lookupRec_of_mem_nodup commands p.1 p.2 hcmd hp]

theorem cmdGate_zero (commands : List (String × StarCommand)) (c : String)
    (h : (lookupRec commands c).isSome = false) : cmdGate commands c = 0 := by
  unfold cmdGate
  cases hl : lookupRec commands c with
  | none => rfl
  | some cmd =>
    rw [hl] at h
    simp at h

/-- C9 (amended): at the CHARACTER level, the bundle `loadRules` actually
loads for any prompt and prompt count never exceeds the character total
that `calculateBaseline` accumulates (assuming the manifest's domain names
and the command names are unique, as they are for JS object keys); hence
the single-ceiling token estimate `(bundleChars + 3) / 4` of the loaded
bundle is at most `calculateBaseline`. The claim's comparison against the
engine's own per-category estimate `tokensInjectedThisPrompt` fails only
by rounding: that estimate takes four separate ceilings, which can exceed
the baseline's single ceiling (see the counterexample). -/
theorem bundle_chars_le_baseline (env : String → List String) (config : CarlyConfig)
    (prompt : String) (promptCount : Nat)
    (hdom : (config.manifest.domains.map Prod.fst).Nodup)
    (hcmd : (config.commands.map Prod.fst).Nodup) :
    bundleChars (loadRules env (matchDomains prompt config.manifest) config
        (getBracket promptCount config.context) promptCount) ≤ baselineChars env config ∧
      (bundleChars (loadRules env (matchDomains prompt config.manifest) config
          (getBracket promptCount config.context) promptCount) + 3) / 4 ≤
        calculateBaseline env config := by
  set mr := matchDomains prompt config.manifest with hmr
  set br := getBracket promptCount config.context with hbr0
  set L := loadRules env mr config br promptCount with hL
  have eA : L.alwaysOn =
      loadDomainEntries env config.configPath config.manifest.domains mr.alwaysOn := rfl
  have eM : L.matched =
      loadDomainEntries env config.configPath config.manifest.domains
        (mr.matched.map (fun e => e.1)) := rfl
  have eC : L.commands =
      if config.manifest.commandsState = FeatState.active ∧ mr.starCommands ≠ []
      then loadCommandEntries config.commands mr.starCommands else [] := rfl
  have eB : L.bracketRules =
      if config.manifest.contextState = FeatState.active then br.rules else [] := rfl
  have hC : (L.commands.map (fun e => charsOfRules e.2)).sum ≤
      (config.commands.map (fun nc => charsOfRules nc.2.rules)).sum := by
    rw [eC]
    by_cases hcc : config.manifest.commandsState = FeatState.active ∧ mr.starCommands ≠ []
    · rw [if_pos hcc]
      have hndS : mr.starCommands.Nodup := by
        rw [hmr, matchDomains_starCommands]
        exact detectStarCommands_nodup prompt
      refine le_trans (cmdGate_chars_le config.commands mr.starCommands) ?_
      rw [sum_eq_sum_filter_of_zero mr.starCommands
        (fun c => (lookupRec config.commands c).isSome) (cmdGate config.commands)
        (fun x _ hx => cmdGate_zero config.commands x hx)]
      apply sum_over_keys_le config.commands _ (cmdGate config.commands)
        (fun nc => charsOfRules nc.2.rules) hcmd (hndS.filter _)
      · intro n hn
        have h1 := (List.mem_filter.mp hn).2
        obtain ⟨cmd, hcl⟩ := Option.isSome_iff_exists.mp h1
        exact mem_keys_of_lookupRec config.commands n cmd hcl
      · intro p hp
        exact cmdGate_le config.commands p hcmd hp
    · rw [if_neg hcc]
      exact Nat.zero_le _
  have hB : (String.join L.bracketRules).length ≤
      (String.join config.context.brackets.fresh.rules).length +
        (String.join config.context.brackets.moderate.rules).length +
        (String.join config.context.brackets.depleted.rules).length := by
    rw [eB]
    by_cases hc : config.manifest.contextState = FeatState.active
    · rw [if_pos hc, hbr0]
      exact bracket_join_le promptCount config.context
    · rw [if_neg hc]
      exact Nat.zero_le _
  have hDM : (L.alwaysOn.map (fun e => charsOfRules e.2)).sum +
      (L.matched.map (fun e => charsOfRules e.2)).sum ≤
      (config.manifest.domains.map (fun nd =>
        if nd.2.state = FeatState.inactive then 0
        else charsOfRules (env (pathJoin config.configPath nd.2.file)))).sum := by
    rcases matchDomains_cases prompt config.manifest with hmain | hsc
    · rw [← hmr] at hmain
      have hactA : ∀ n ∈ mr.alwaysOn, ∀ d,
          lookupRec config.manifest.domains n = some d → d.state ≠ FeatState.inactive := by
        intro n hn d hl
        rw [hmain] at hn
        obtain ⟨d0, hd0mem, hd0act, _⟩ := alwaysOn_name_spec prompt config.manifest n hn
        have he := lookupRec_of_mem_nodup config.manifest.domains n d0 hdom hd0mem
        rw [he] at hl
        injection hl with he2
        rw [← he2]
        exact hd0act
      have hactM : ∀ n ∈ mr.matched.map (fun e => e.1), ∀ d,
          lookupRec config.manifest.domains n = some d → d.state ≠ FeatState.inactive := by
        intro n hn d hl
        rw [hmain] at hn
        obtain ⟨d0, hd0mem, hd0act, _⟩ := matched_name_spec prompt config.manifest n hn
        have he := lookupRec_of_mem_nodup config.manifest.domains n d0 hdom hd0mem
        rw [he] at hl
        injection hl with he2
        rw [← he2]
        exact hd0act
      have h1 := domGate_chars_le env config.configPath config.manifest.domains
        mr.alwaysOn hactA
      have h2 := domGate_chars_le env config.configPath config.manifest.domains
        (mr.matched.map (fun e => e.1)) hactM
      have hndA : mr.alwaysOn.Nodup := by
        rw [hmain]
        exact alwaysOn_names_nodup prompt config.manifest hdom
      have hndM : (mr.matched.map (fun e => e.1)).Nodup := by
        rw [hmain]
        exact matched_names_nodup prompt config.manifest hdom
      have hdisj : mr.alwaysOn.Disjoint (mr.matched.map (fun e => e.1)) := by
        intro n hnA hnM
        rw [hmain] at hnA hnM
        obtain ⟨d1, hm1, _, hao1⟩ := alwaysOn_name_spec prompt config.manifest n hnA
        obtain ⟨d2, hm2, _, hao2⟩ := matched_name_spec prompt config.manifest n hnM
        have hv := mem_values_unique config.manifest.domains hdom n d1 d2 hm1 hm2
        rw [hv] at hao1
        rw [hao1] at hao2
        simp at hao2
      have hnd2 : (mr.alwaysOn ++ mr.matched.map (fun e => e.1)).Nodup :=
        List.Nodup.append hndA hndM hdisj
      have hsub : ∀ n ∈ mr.alwaysOn ++ mr.matched.map (fun e => e.1),
          n ∈ config.manifest.domains.map Prod.fst := by
        intro n hn
        rcases List.mem_append.mp hn with h | h
        · rw [hmain] at h
          obtain ⟨d0, hd0mem, _, _⟩ := alwaysOn_name_spec prompt config.manifest n h
          exact List.mem_map.mpr ⟨(n, d0), hd0mem, rfl⟩
        · rw [hmain] at h
          obtain ⟨d0, hd0mem, _, _⟩ := matched_name_spec prompt config.manifest n h
          exact List.mem_map.mpr ⟨(n, d0), hd0mem, rfl⟩
      have h3 := sum_over_keys_le config.manifest.domains
        (mr.alwaysOn ++ mr.matched.map (fun e => e.1))
        (domGate env config.configPath config.manifest.domains)
        (fun nd => if nd.2.state = FeatState.inactive then 0
          else charsOfRules (env (pathJoin config.configPath nd.2.file)))
        hdom hnd2 hsub
        (fun p hp => domGate_le env config.configPath config.manifest.domains p hdom hp)
      rw [List.map_append, List.sum_append] at h3
      rw [eA, eM]
      omega
    · rw [← hmr] at hsc
      rw [eA, eM, hsc.1, hsc.2]
      exact Nat.zero_le _
  have key : bundleChars L ≤ baselineChars env config := by
    have hgoal : bundleChars L =
        (L.alwaysOn.map (fun e => charsOfRules e.2)).sum +
          (L.matched.map (fun e => charsOfRules e.2)).sum +
          (L.commands.map (fun e => charsOfRules e.2)).sum +
          (String.join L.bracketRules).length := rfl
    rw [hgoal]
    unfold baselineChars
    omega
  refine ⟨key, ?_⟩
  rw [calculateBaseline_eq]
  exact Nat.div_le_div_right (Nat.add_le_add_right key 3)

/-- Witness for the amended C9 theorem at the concrete configuration of the
counterexample family: the nodup hypotheses hold and the chars-level bound
is attained. -/
theorem bundle_chars_le_baseline_witness :
    ((cfgC9.manifest.domains.map Prod.fst).Nodup ∧
        (cfgC9.commands.map Prod.fst).Nodup) ∧
      bundleChars (loadRules envC9 (matchDomains "*c" cfgC9.manifest) cfgC9
          (getBracket 0 cfgC9.context) 0) ≤ baselineChars envC9 cfgC9 ∧
        (bundleChars (loadRules envC9 (matchDomains "*c" cfgC9.manifest) cfgC9
            (getBracket 0 cfgC9.context) 0) + 3) / 4 ≤ calculateBaseline envC9 cfgC9 :=
  ⟨⟨by decide, by decide⟩,
    bundle_chars_le_baseline envC9 cfgC9 "*c" 0 (by decide) (by decide)⟩
